import Mathlib

/-!
ccoinjoin-wallet: the commands `get-address` and `update-balances`.

A shallow embedding of the two oclif commands `src/commands/get-address.js`
and `src/commands/update-balances.js`.

* A JavaScript number holding a BCH amount is a finite IEEE 754 double, kept
  as the rational it denotes; `+`, `*` and `/` on such numbers round their
  exact result to the nearest double, ties to even (`JS.add`, `JS.mul`,
  `JS.div`). `NaN`, the infinities and overflow are outside the model.
  Satoshi amounts are integers `ℤ`, the address counter a natural number.
* The BITBOX SDK is an external collaborator: it is a record of functions that
  may throw.  Key derivation is a pure function of its arguments; the balance
  query `Address.details` additionally depends on the moment it is asked,
  modelled by a clock that counts the queries made so far.
* The wallet directory, the console and the order of all external calls are
  kept in an explicit `World` that every effectful function threads through.
-/

/-- One element of the `hasBalance` array of a wallet file. -/
structure HasBalanceEntry where
  index : Nat
  balance : ℚ
  balanceSat : ℤ
  unconfirmedBalance : ℚ
  unconfirmedBalanceSat : ℤ
  cashAddress : String
deriving DecidableEq

/-- The JSON object stored in `wallets/<name>.json`. -/
structure WalletInfo where
  name : String
  network : String
  mnemonic : String
  nextAddress : Nat
  balance : ℚ
  hasBalance : List HasBalanceEntry
deriving DecidableEq

/-- One element of the array answered by `BITBOX.Address.details`; the field
`addressIndex` is the one `getAddressData` adds to the object. -/
structure AddressDetails where
  balance : ℚ
  balanceSat : ℤ
  unconfirmedBalance : ℚ
  unconfirmedBalanceSat : ℤ
  cashAddress : String
  addressIndex : Option Nat
deriving DecidableEq

/-- What a call can throw. -/
inductive Error where
  /-- `new Error("You must specify a wallet with the -n flag.")` -/
  | mustSpecifyWallet
  /-- `new Error("Could not open <name>.json")` -/
  | couldNotOpen (name : String)
  /-- the rejection of the promise of `saveWallet` -/
  | writeRejected
  /-- a property access on `undefined` -/
  | typeError
  /-- anything thrown inside the BITBOX SDK -/
  | sdk (msg : String)
deriving DecidableEq

/-- The externally visible steps of a run, in the order they happen. -/
inductive Event where
  | require (name : String)
  | writeFile (name : String) (data : WalletInfo)
  | consoleLog (msg : String)
  | consoleError
  | toSeed (mnemonic : String)
  | fromSeed (network : Option String)
  | derivePath (path : String)
  | toCashAddress
  | toLegacyAddress
  | details (addresses : List String)
deriving DecidableEq

/-- The BITBOX SDK object handed to the commands. `Seed` is the root seed
buffer, `Node` an HD node. -/
structure BB (Seed Node : Type) where
  toSeed : String → Except String Seed
  fromSeed : Seed → Option String → Except String Node
  derivePath : Node → String → Except String Node
  toCashAddress : Node → Except String String
  toLegacyAddress : Node → Except String String
  details : Nat → List String → Except String (List AddressDetails)

/-- The environment of a run: the wallet directory, which wallet files cannot
be written, the number of balance queries answered so far, and the trace. -/
structure World where
  wallets : String → Option WalletInfo
  unwritable : String → Bool
  clock : Nat
  trace : List Event

/-- A computation that may throw and that changes the world as it goes. -/
def Eff (α : Type) : Type := World → Except Error α × World

namespace Eff

/-- Return a value. -/
def ret {α : Type} (a : α) : Eff α := fun w => (.ok a, w)

/-- Throw. -/
def raise {α : Type} (e : Error) : Eff α := fun w => (.error e, w)

/-- Sequencing: a throw skips the rest. -/
def andThen {α β : Type} (m : Eff α) (f : α → Eff β) : Eff β := fun w =>
  match m w with
  | (.ok a, w1) => f a w1
  | (.error e, w1) => (.error e, w1)

/-- Record one event. -/
def emit (ev : Event) : Eff Unit := fun w =>
  (.ok (), { w with trace := w.trace ++ [ev] })

/-- A call into the SDK: recorded, then its result returned or thrown. -/
def call {α : Type} (ev : Event) (r : Except String α) : Eff α := fun w =>
  match r with
  | .ok a => (.ok a, { w with trace := w.trace ++ [ev] })
  | .error msg => (.error (.sdk msg), { w with trace := w.trace ++ [ev] })

end Eff

instance : Monad Eff where
  pure := Eff.ret
  bind := Eff.andThen

/-- The text of the warning printed once more than 100 addresses exist (line
breaks and indentation of the template literal left out). -/
def advisory : String :=
  "Over 100 addresses have been generated with this wallet. You should consider consolidating this wallet into a new one, to reduce processing time in tracking all the addresses."

namespace GetAddress

/-- `openWallet(name)`: `require` the wallet file, or throw. The directory of
the world stands for what `require` answers, which after a successful
`saveWallet` is also what the file holds. -/
def openWallet (name : String) : Eff WalletInfo := fun w =>
  match w.wallets name with
  | some walletInfo => (.ok walletInfo, { w with trace := w.trace ++ [.require name] })
  | none => (.error (.couldNotOpen name), { w with trace := w.trace ++ [.require name] })

/-- `saveWallet(name, walletData)`: overwrite the wallet file; on a write
error print it and reject. -/
def saveWallet (name : String) (walletData : WalletInfo) : Eff Unit := fun w =>
  if w.unwritable name then
    (.error .writeRejected,
      { w with trace := w.trace ++ [.writeFile name walletData, .consoleError] })
  else
    (.ok (), { w with
      wallets := Function.update w.wallets name (some walletData)
      trace := w.trace ++ [.writeFile name walletData] })

/-- `getAddress(name, BITBOX)`. -/
def getAddress {Seed Node : Type} (name : Option String) (BITBOX : BB Seed Node) :
    Eff String :=
  match name with
  | none => Eff.raise .mustSpecifyWallet
  | some name =>
    if name = "" then Eff.raise .mustSpecifyWallet
    else do
      let walletInfo ← openWallet name
      let rootSeed ← Eff.call (.toSeed walletInfo.mnemonic) (BITBOX.toSeed walletInfo.mnemonic)
      let masterHDNode ←
        if walletInfo.network = "testnet" then
          Eff.call (.fromSeed (some "testnet")) (BITBOX.fromSeed rootSeed (some "testnet"))
        else Eff.call (.fromSeed none) (BITBOX.fromSeed rootSeed none)
      let account ← Eff.call (.derivePath "m/44'/145'/0'")
        (BITBOX.derivePath masterHDNode "m/44'/145'/0'")
      let change ← Eff.call (.derivePath ("0/" ++ toString walletInfo.nextAddress))
        (BITBOX.derivePath account ("0/" ++ toString walletInfo.nextAddress))
      let walletInfo := { walletInfo with nextAddress := walletInfo.nextAddress + 1 }
      if walletInfo.nextAddress > 100 then Eff.emit (.consoleLog advisory) else Eff.ret ()
      saveWallet name walletInfo
      let newAddress ← Eff.call .toCashAddress (BITBOX.toCashAddress change)
      let _legacy ← Eff.call .toLegacyAddress (BITBOX.toLegacyAddress change)
      return newAddress

end GetAddress

namespace appUtil

/-- Modelled from the spec: `saveWallet` of `src/util.js`, which is not among
the sources. The Wallet Store's `save(name, WalletRecord)` either succeeds,
overwriting the whole record stored under the name, or fails with a store
write error and writes nothing. -/
def saveWallet (name : String) (walletData : WalletInfo) : Eff Unit := fun w =>
  if w.unwritable name then
    (.error .writeRejected, { w with trace := w.trace ++ [.writeFile name walletData] })
  else
    (.ok (), { w with
      wallets := Function.update w.wallets name (some walletData)
      trace := w.trace ++ [.writeFile name walletData] })

end appUtil

/-- The object parsed from the command line; `name` is `undefined` when the
`-n` flag is absent. -/
structure Flags where
  name : Option String

namespace JS

/-- The integer nearest to `x`, the even one of the two when `x` lies halfway. -/
def roundHalfEven (x : ℚ) : ℤ :=
  if x - ⌊x⌋ < 1 / 2 then ⌊x⌋
  else if 1 / 2 < x - ⌊x⌋ then ⌊x⌋ + 1
  else if ⌊x⌋ % 2 = 0 then ⌊x⌋
  else ⌊x⌋ + 1

/-- The double nearest to `x`: a significand of 53 bits at the binary exponent
of `x` (not below the least exponent, -1074, of a double), rounded to nearest,
ties to even. -/
def toDouble (x : ℚ) : ℚ :=
  if x = 0 then 0
  else
    (roundHalfEven (x / 2 ^ max (Int.log 2 |x| - 52) (-1074)) : ℚ) *
      2 ^ max (Int.log 2 |x| - 52) (-1074)

/-- `a + b` on numbers. -/
def add (a b : ℚ) : ℚ := toDouble (a + b)

/-- `a * b` on numbers. -/
def mul (a b : ℚ) : ℚ := toDouble (a * b)

/-- `a / b` on numbers, for a divisor other than 0. -/
def div (a b : ℚ) : ℚ := toDouble (a / b)

/-- `Math.floor(x)`. -/
def floor (x : ℚ) : ℚ := (⌊x⌋ : ℤ)

end JS

namespace UpdateBalances

/-- `validateFlags(flags)`. -/
def validateFlags (flags : Flags) : Except Error Bool :=
  match flags.name with
  | none => .error .mustSpecifyWallet
  | some name => if name = "" then .error .mustSpecifyWallet else .ok true

/-- `generateAddress(walletInfo, index, BITBOX)`. -/
def generateAddress {Seed Node : Type} (walletInfo : WalletInfo) (index : Nat)
    (BITBOX : BB Seed Node) : Eff String := do
  let rootSeed ← Eff.call (.toSeed walletInfo.mnemonic) (BITBOX.toSeed walletInfo.mnemonic)
  let masterHDNode ←
    if walletInfo.network = "testnet" then
      Eff.call (.fromSeed (some "testnet")) (BITBOX.fromSeed rootSeed (some "testnet"))
    else Eff.call (.fromSeed none) (BITBOX.fromSeed rootSeed none)
  let account ← Eff.call (.derivePath "m/44'/145'/0'")
    (BITBOX.derivePath masterHDNode "m/44'/145'/0'")
  let change ← Eff.call (.derivePath ("0/" ++ toString index))
    (BITBOX.derivePath account ("0/" ++ toString index))
  let newAddress ← Eff.call .toCashAddress (BITBOX.toCashAddress change)
  return newAddress

/-- `await BITBOX.Address.details(addresses)`: one query of the network. -/
def addressDetails {Seed Node : Type} (BITBOX : BB Seed Node) (addresses : List String) :
    Eff (List AddressDetails) := fun w =>
  Eff.call (.details addresses) (BITBOX.details w.clock addresses)
    { w with clock := w.clock + 1 }

/-- The `for` loop of `getAddressData`, entered at index `i` with the array
`balances` built so far. -/
def getAddressDataLoop {Seed Node : Type} (walletInfo : WalletInfo) (BITBOX : BB Seed Node)
    (numberOfAddresses : Nat) (i : Nat) (balances : List AddressDetails) :
    Eff (List AddressDetails) :=
  if i < numberOfAddresses then do
    let thisAddress ← generateAddress walletInfo i BITBOX
    let balance ← addressDetails BITBOX [thisAddress]
    match balance.head? with
    | none => Eff.raise .typeError
    | some balance =>
      let balance := { balance with addressIndex := some i }
      getAddressDataLoop walletInfo BITBOX numberOfAddresses (i + 1) (balances ++ [balance])
  else Eff.ret balances
termination_by numberOfAddresses - i

/-- `getAddressData(walletInfo, BITBOX)`. -/
def getAddressData {Seed Node : Type} (walletInfo : WalletInfo) (BITBOX : BB Seed Node) :
    Eff (List AddressDetails) :=
  let numberOfAddresses := walletInfo.nextAddress
  getAddressDataLoop walletInfo BITBOX numberOfAddresses 0 []

/-- The `for` loop of `generateHasBalance`, entered at index `i`. -/
def generateHasBalanceLoop (addressData : List AddressDetails) (i : Nat)
    (hasBalance : List HasBalanceEntry) : List HasBalanceEntry :=
  if h : i < addressData.length then
    let thisAddr := addressData[i]
    if thisAddr.balance > 0 ∨ thisAddr.unconfirmedBalance > 0 then
      let thisObj : HasBalanceEntry :=
        { index := i
          balance := thisAddr.balance
          balanceSat := thisAddr.balanceSat
          unconfirmedBalance := thisAddr.unconfirmedBalance
          unconfirmedBalanceSat := thisAddr.unconfirmedBalanceSat
          cashAddress := thisAddr.cashAddress }
      generateHasBalanceLoop addressData (i + 1) (hasBalance ++ [thisObj])
    else generateHasBalanceLoop addressData (i + 1) hasBalance
  else hasBalance
termination_by addressData.length - i

/-- `generateHasBalance(addressData)`. -/
def generateHasBalance (addressData : List AddressDetails) : List HasBalanceEntry :=
  generateHasBalanceLoop addressData 0 []

/-- The `for` loop of `sumConfirmedBalances`, entered at index `i`. -/
def sumConfirmedBalancesLoop (hasBalance : List HasBalanceEntry) (i : Nat) (total : ℚ) : ℚ :=
  if h : i < hasBalance.length then
    let thisHasBalance := hasBalance[i]
    sumConfirmedBalancesLoop hasBalance (i + 1) (JS.add total thisHasBalance.balance)
  else total
termination_by hasBalance.length - i

/-- `sumConfirmedBalances(hasBalance)`. -/
def sumConfirmedBalances (hasBalance : List HasBalanceEntry) : ℚ :=
  let total := sumConfirmedBalancesLoop hasBalance 0 0
  let totalSatoshis := JS.floor (JS.mul total 100000000)
  JS.div totalSatoshis 100000000

/-- `updateBalances(walletInfo, BITBOX)`. -/
def updateBalances {Seed Node : Type} (walletInfo : WalletInfo) (BITBOX : BB Seed Node) :
    Eff WalletInfo := do
  let addressData ← getAddressData walletInfo BITBOX
  let hasBalance := generateHasBalance addressData
  let balance := sumConfirmedBalances hasBalance
  let walletInfo := { walletInfo with balance := balance, hasBalance := hasBalance }
  appUtil.saveWallet walletInfo.name walletInfo
  return walletInfo

end UpdateBalances

namespace Spec

/-- The external-chain leaf of the spec, section 4.1 steps 2 to 4: the master
node of the mnemonic for the network, then the account path, then `0/index`. -/
def deriveLeaf {Seed Node : Type} (BITBOX : BB Seed Node) (mnemonic network : String)
    (index : Nat) : Except String Node :=
  match BITBOX.toSeed mnemonic with
  | .error msg => .error msg
  | .ok rootSeed =>
    match BITBOX.fromSeed rootSeed (if network = "testnet" then some "testnet" else none) with
    | .error msg => .error msg
    | .ok master =>
      match BITBOX.derivePath master "m/44'/145'/0'" with
      | .error msg => .error msg
      | .ok account => BITBOX.derivePath account ("0/" ++ toString index)

/-- The address of the spec for `(mnemonic, network, index)`: the encoded leaf. -/
def deriveAddress {Seed Node : Type} (BITBOX : BB Seed Node) (mnemonic network : String)
    (index : Nat) : Except String String :=
  match deriveLeaf BITBOX mnemonic network index with
  | .error msg => .error msg
  | .ok leaf => BITBOX.toCashAddress leaf

end Spec

/-- Calling `getAddress` `N` times in a row: the results of the calls in
order, and the world left behind. -/
def getAddressTimes {Seed Node : Type} (name : Option String) (BITBOX : BB Seed Node) :
    Nat → World → List (Except Error String) × World
  | 0, w => ([], w)
  | N + 1, w =>
    let first := GetAddress.getAddress name BITBOX w
    let later := getAddressTimes name BITBOX N first.2
    (first.1 :: later.1, later.2)

/-- The SDK never throws. -/
def BB.NeverThrows {Seed Node : Type} (BITBOX : BB Seed Node) : Prop :=
  (∀ m, ∃ s, BITBOX.toSeed m = .ok s) ∧
  (∀ s net, ∃ n, BITBOX.fromSeed s net = .ok n) ∧
  (∀ n p, ∃ c, BITBOX.derivePath n p = .ok c) ∧
  (∀ n, ∃ a, BITBOX.toCashAddress n = .ok a) ∧
  (∀ n, ∃ a, BITBOX.toLegacyAddress n = .ok a)

/-- An event is a write of a wallet file. -/
def Event.isWrite : Event → Bool
  | .writeFile _ _ => true
  | _ => false

/-- A computation that leaves the wallet directory alone: it changes neither
the files nor their writability, and records no write. -/
def Eff.Quiet {α : Type} (m : Eff α) : Prop :=
  ∀ w, (m w).2.wallets = w.wallets ∧ (m w).2.unwritable = w.unwritable ∧
    ∃ evs, (m w).2.trace = w.trace ++ evs ∧ ∀ ev ∈ evs, Event.isWrite ev = false

namespace Spec

/-- The answer of the provider for the address at `index` when asked at
`clock`: the first element of the array `Address.details` returns. -/
def response {Seed Node : Type} (BITBOX : BB Seed Node) (walletInfo : WalletInfo)
    (clock index : Nat) : Except Error AddressDetails :=
  match deriveAddress BITBOX walletInfo.mnemonic walletInfo.network index with
  | .error msg => .error (.sdk msg)
  | .ok address =>
    match BITBOX.details clock [address] with
    | .error msg => .error (.sdk msg)
    | .ok [] => .error .typeError
    | .ok (d :: _) => .ok d

end Spec

namespace Spec

/-- The condition under which `generateHasBalance` keeps an address. -/
def hasFunds (d : AddressDetails) : Prop :=
  d.balance > 0 ∨ d.unconfirmedBalance > 0

instance (d : AddressDetails) : Decidable (hasFunds d) := by
  unfold hasFunds
  exact inferInstance

/-- The `hasBalance` object built for the address data `d` found at position `i`. -/
def entryOf (i : Nat) (d : AddressDetails) : HasBalanceEntry :=
  { index := i
    balance := d.balance
    balanceSat := d.balanceSat
    unconfirmedBalance := d.unconfirmedBalance
    unconfirmedBalanceSat := d.unconfirmedBalanceSat
    cashAddress := d.cashAddress }

/-- The aggregate of the spec, section 4.2 step 5: every confirmed balance is
converted to whole subunits (`Math.floor(balance * 100000000)`), the subunits
are added as integers, and the sum is converted back to display units. -/
def sumInSubunits (hasBalance : List HasBalanceEntry) : ℚ :=
  JS.div (((hasBalance.map (fun e => ⌊JS.mul e.balance 100000000⌋)).sum : ℤ) : ℚ) 100000000

end Spec

/-! ## Concrete wallets and a concrete SDK -/

/-- A small SDK on which the commands can be run: a node is the text of its
derivation, an address the text of its node, and the network answers the
query made at moment `clock` with `table clock`. -/
def demoBB (table : Nat → Except String (List AddressDetails)) : BB String String where
  toSeed := fun mnemonic => .ok mnemonic
  fromSeed := fun seed network =>
    match network with
    | some n => .ok (seed ++ "@" ++ n)
    | none => .ok seed
  derivePath := fun node path => .ok (node ++ "/" ++ path)
  toCashAddress := fun node => .ok node
  toLegacyAddress := fun node => .ok node
  details := fun clock _ => table clock

/-- A testnet wallet file named `alice` with `n` addresses issued so far. -/
def aliceWallet (n : Nat) : WalletInfo :=
  { name := "alice"
    network := "testnet"
    mnemonic := "seed"
    nextAddress := n
    balance := 0
    hasBalance := [] }

/-- A wallet directory holding only `alice`, all files writable. -/
def demoWorld (n : Nat) : World :=
  { wallets := fun name => if name = "alice" then some (aliceWallet n) else none
    unwritable := fun _ => false
    clock := 0
    trace := [] }

/-- An answer of the network carrying the given confirmed and unconfirmed
balances, with matching satoshi amounts. -/
def demoDetails (confirmed unconfirmed : ℚ) : AddressDetails :=
  { balance := confirmed
    balanceSat := ⌊confirmed * 100000000⌋
    unconfirmedBalance := unconfirmed
    unconfirmedBalanceSat := ⌊unconfirmed * 100000000⌋
    cashAddress := ""
    addressIndex := none }

/-- The network of example scenario 2: confirmed balances 0, 0.5 and 0 for
the first three queries, nothing unconfirmed. -/
def scenarioTwo : Nat → Except String (List AddressDetails)
  | 1 => .ok [demoDetails (1 / 2) 0]
  | _ => .ok [demoDetails 0 0]

/-- A network whose first answer has no confirmed balance and a negative
unconfirmed one (an unconfirmed spend). -/
def pendingSpend : Nat → Except String (List AddressDetails)
  | _ => .ok [demoDetails 0 (-1)]

/-- An answer of the network with a confirmed balance and the same amount in
satoshis, nothing unconfirmed. -/
def confirmedAnswer (balance : ℚ) (balanceSat : ℤ) : AddressDetails :=
  { balance := balance
    balanceSat := balanceSat
    unconfirmedBalance := 0
    unconfirmedBalanceSat := 0
    cashAddress := ""
    addressIndex := none }

/-- A network that reports 0.3 BCH (30000000 satoshis) for the first query and
0.6 BCH (60000000 satoshis) for every later one; the balances are the doubles
a JSON parser reads from `0.3` and `0.6`. -/
def threeAndSixTenths : Nat → Except String (List AddressDetails)
  | 0 => .ok [confirmedAnswer (JS.toDouble (3 / 10)) 30000000]
  | _ => .ok [confirmedAnswer (JS.toDouble (3 / 5)) 60000000]

/-- The `hasBalance` list of a wallet holding 0.3 BCH at index 0 and 0.6 BCH
at index 1. -/
def threeAndSixTenthsEntries : List HasBalanceEntry :=
  [Spec.entryOf 0 (confirmedAnswer (JS.toDouble (3 / 10)) 30000000),
    Spec.entryOf 1 (confirmedAnswer (JS.toDouble (3 / 5)) 60000000)]

/-- A network that answers the first query and times out on the second. -/
def timeoutAtOne : Nat → Except String (List AddressDetails)
  | 0 => .ok [demoDetails 0 0]
  | _ => .error "timeout"

/-! ## Auxiliary lemmas -/

section Lemmas

variable {Seed Node : Type}

theorem Eff.bind_eq {α β : Type} (m : Eff α) (f : α → Eff β) :
    (m >>= f) = Eff.andThen m f := rfl

theorem Eff.pure_eq {α : Type} (a : α) : (pure a : Eff α) = Eff.ret a := rfl

/-- The value `generateAddress` returns or throws is the spec address. -/
theorem generateAddress_fst (walletInfo : WalletInfo) (index : Nat) (BITBOX : BB Seed Node)
    (w : World) :
    (UpdateBalances.generateAddress walletInfo index BITBOX w).1 =
      match Spec.deriveAddress BITBOX walletInfo.mnemonic walletInfo.network index with
      | .ok a => .ok a
      | .error msg => .error (.sdk msg) := by
  unfold UpdateBalances.generateAddress Spec.deriveAddress Spec.deriveLeaf
  simp only [Eff.bind_eq, Eff.pure_eq]
  cases h1 : BITBOX.toSeed walletInfo.mnemonic with
  | error m => simp [Eff.andThen, Eff.call, Eff.ret, h1]
  | ok seed =>
    by_cases hn : walletInfo.network = "testnet"
    · cases h2 : BITBOX.fromSeed seed (some "testnet") with
      | error m => simp [Eff.andThen, Eff.call, Eff.ret, h1, hn, h2]
      | ok master =>
        cases h3 : BITBOX.derivePath master "m/44'/145'/0'" with
        | error m => simp [Eff.andThen, Eff.call, Eff.ret, h1, hn, h2, h3]
        | ok account =>
          cases h4 : BITBOX.derivePath account ("0/" ++ toString index) with
          | error m => simp [Eff.andThen, Eff.call, Eff.ret, h1, hn, h2, h3, h4]
          | ok change =>
            cases h5 : BITBOX.toCashAddress change <;>
              simp [Eff.andThen, Eff.call, Eff.ret, h1, hn, h2, h3, h4, h5]
    · cases h2 : BITBOX.fromSeed seed none with
      | error m => simp [Eff.andThen, Eff.call, Eff.ret, h1, hn, h2]
      | ok master =>
        cases h3 : BITBOX.derivePath master "m/44'/145'/0'" with
        | error m => simp [Eff.andThen, Eff.call, Eff.ret, h1, hn, h2, h3]
        | ok account =>
          cases h4 : BITBOX.derivePath account ("0/" ++ toString index) with
          | error m => simp [Eff.andThen, Eff.call, Eff.ret, h1, hn, h2, h3, h4]
          | ok change =>
            cases h5 : BITBOX.toCashAddress change <;>
              simp [Eff.andThen, Eff.call, Eff.ret, h1, hn, h2, h3, h4, h5]


theorem Eff.Quiet.of_ret {α : Type} (a : α) : (Eff.ret a).Quiet :=
  fun w => ⟨rfl, rfl, [], by simp [Eff.ret], by simp⟩

theorem Eff.Quiet.of_raise {α : Type} (e : Error) : (Eff.raise e : Eff α).Quiet :=
  fun w => ⟨rfl, rfl, [], by simp [Eff.raise], by simp⟩

theorem Eff.Quiet.of_call {α : Type} {ev : Event} (h : Event.isWrite ev = false)
    (r : Except String α) : (Eff.call ev r).Quiet := by
  intro w
  cases r <;> exact ⟨rfl, rfl, [ev], rfl, by simpa using h⟩

theorem Eff.Quiet.of_andThen {α β : Type} {m : Eff α} {f : α → Eff β} (hm : m.Quiet)
    (hf : ∀ a, (f a).Quiet) : (m.andThen f).Quiet := by
  intro w
  obtain ⟨h1, h2, evs, h3, h4⟩ := hm w
  unfold Eff.andThen
  rcases hmw : m w with ⟨r, w1⟩
  rw [hmw] at h1 h2 h3
  cases r with
  | error e => exact ⟨h1, h2, evs, h3, h4⟩
  | ok a =>
    obtain ⟨g1, g2, evs2, g3, g4⟩ := hf a w1
    refine ⟨g1.trans h1, g2.trans h2, evs ++ evs2, ?_, ?_⟩
    · show (f a w1).2.trace = w.trace ++ (evs ++ evs2)
      rw [g3]
      simp only [] at h3
      rw [h3, List.append_assoc]
    · intro ev hev
      rcases List.mem_append.1 hev with h | h
      · exact h4 _ h
      · exact g4 _ h

theorem generateAddress_quiet (walletInfo : WalletInfo) (index : Nat) (BITBOX : BB Seed Node) :
    (UpdateBalances.generateAddress walletInfo index BITBOX).Quiet := by
  unfold UpdateBalances.generateAddress
  simp only [Eff.bind_eq, Eff.pure_eq]
  refine Eff.Quiet.of_andThen (Eff.Quiet.of_call (by rfl) _) (fun _ => ?_)
  split <;>
    exact Eff.Quiet.of_andThen (Eff.Quiet.of_call (by rfl) _) (fun _ =>
      Eff.Quiet.of_andThen (Eff.Quiet.of_call (by rfl) _) (fun _ =>
        Eff.Quiet.of_andThen (Eff.Quiet.of_call (by rfl) _) (fun _ =>
          Eff.Quiet.of_andThen (Eff.Quiet.of_call (by rfl) _) (fun _ => Eff.Quiet.of_ret _))))

theorem generateAddress_clock (walletInfo : WalletInfo) (index : Nat) (BITBOX : BB Seed Node)
    (w : World) :
    (UpdateBalances.generateAddress walletInfo index BITBOX w).2.clock = w.clock := by
  unfold UpdateBalances.generateAddress
  simp only [Eff.bind_eq, Eff.pure_eq]
  cases h1 : BITBOX.toSeed walletInfo.mnemonic with
  | error m => simp [Eff.andThen, Eff.call, Eff.ret, h1]
  | ok seed =>
    by_cases hn : walletInfo.network = "testnet"
    · cases h2 : BITBOX.fromSeed seed (some "testnet") with
      | error m => simp [Eff.andThen, Eff.call, Eff.ret, h1, hn, h2]
      | ok master =>
        cases h3 : BITBOX.derivePath master "m/44'/145'/0'" with
        | error m => simp [Eff.andThen, Eff.call, Eff.ret, h1, hn, h2, h3]
        | ok account =>
          cases h4 : BITBOX.derivePath account ("0/" ++ toString index) with
          | error m => simp [Eff.andThen, Eff.call, Eff.ret, h1, hn, h2, h3, h4]
          | ok change =>
            cases h5 : BITBOX.toCashAddress change <;>
              simp [Eff.andThen, Eff.call, Eff.ret, h1, hn, h2, h3, h4, h5]
    · cases h2 : BITBOX.fromSeed seed none with
      | error m => simp [Eff.andThen, Eff.call, Eff.ret, h1, hn, h2]
      | ok master =>
        cases h3 : BITBOX.derivePath master "m/44'/145'/0'" with
        | error m => simp [Eff.andThen, Eff.call, Eff.ret, h1, hn, h2, h3]
        | ok account =>
          cases h4 : BITBOX.derivePath account ("0/" ++ toString index) with
          | error m => simp [Eff.andThen, Eff.call, Eff.ret, h1, hn, h2, h3, h4]
          | ok change =>
            cases h5 : BITBOX.toCashAddress change <;>
              simp [Eff.andThen, Eff.call, Eff.ret, h1, hn, h2, h3, h4, h5]

theorem addressDetails_quiet (BITBOX : BB Seed Node) (addresses : List String) :
    (UpdateBalances.addressDetails BITBOX addresses).Quiet := by
  intro w
  unfold UpdateBalances.addressDetails Eff.call
  cases BITBOX.details w.clock addresses <;>
    exact ⟨rfl, rfl, [.details addresses], rfl, by simp [Event.isWrite]⟩


theorem getAddressDataLoop_done (walletInfo : WalletInfo) (BITBOX : BB Seed Node)
    (n i : Nat) (acc : List AddressDetails) (w : World) (h : ¬ i < n) :
    UpdateBalances.getAddressDataLoop walletInfo BITBOX n i acc w = (.ok acc, w) := by
  rw [UpdateBalances.getAddressDataLoop]
  simp [h, Eff.ret]

theorem getAddressDataLoop_step_error (walletInfo : WalletInfo) (BITBOX : BB Seed Node)
    (n i : Nat) (acc : List AddressDetails) (w : World) (h : i < n) (e : Error)
    (hr : Spec.response BITBOX walletInfo w.clock i = .error e) :
    (UpdateBalances.getAddressDataLoop walletInfo BITBOX n i acc w).1 = .error e := by
  rw [UpdateBalances.getAddressDataLoop]
  simp only [h, if_true, Eff.bind_eq, Eff.andThen]
  have hv := generateAddress_fst walletInfo i BITBOX w
  have hc := generateAddress_clock walletInfo i BITBOX w
  unfold Spec.response at hr
  rcases hg : UpdateBalances.generateAddress walletInfo i BITBOX w with ⟨r, w1⟩
  rw [hg] at hv hc
  simp only [] at hv hc
  cases hd : Spec.deriveAddress BITBOX walletInfo.mnemonic walletInfo.network i with
  | error msg =>
    rw [hd] at hv hr
    simp only [] at hv hr
    subst hv
    simpa using hr
  | ok address =>
    rw [hd] at hv hr
    simp only [] at hv hr
    subst hv
    simp only [UpdateBalances.addressDetails, Eff.call, hc]
    cases hq : BITBOX.details w.clock [address] with
    | error msg =>
      rw [hq] at hr
      simpa using hr
    | ok l =>
      rw [hq] at hr
      cases l with
      | nil => simpa [Eff.raise] using hr
      | cons d rest => simp at hr

theorem getAddressDataLoop_step_ok (walletInfo : WalletInfo) (BITBOX : BB Seed Node)
    (n i : Nat) (acc : List AddressDetails) (w : World) (h : i < n) (d : AddressDetails)
    (hr : Spec.response BITBOX walletInfo w.clock i = .ok d) :
    ∃ w1, w1.clock = w.clock + 1 ∧
      UpdateBalances.getAddressDataLoop walletInfo BITBOX n i acc w =
        UpdateBalances.getAddressDataLoop walletInfo BITBOX n (i + 1)
          (acc ++ [{ d with addressIndex := some i }]) w1 := by
  rw [UpdateBalances.getAddressDataLoop]
  simp only [h, if_true, Eff.bind_eq, Eff.andThen]
  have hv := generateAddress_fst walletInfo i BITBOX w
  have hc := generateAddress_clock walletInfo i BITBOX w
  unfold Spec.response at hr
  rcases hg : UpdateBalances.generateAddress walletInfo i BITBOX w with ⟨r, w1⟩
  rw [hg] at hv hc
  simp only [] at hv hc
  cases hd : Spec.deriveAddress BITBOX walletInfo.mnemonic walletInfo.network i with
  | error msg =>
    rw [hd] at hr
    simp at hr
  | ok address =>
    rw [hd] at hv hr
    simp only [] at hv hr
    subst hv
    simp only [UpdateBalances.addressDetails, Eff.call, hc]
    cases hq : BITBOX.details w.clock [address] with
    | error msg =>
      rw [hq] at hr
      simp at hr
    | ok l =>
      rw [hq] at hr
      cases l with
      | nil => simp at hr
      | cons d0 rest =>
        simp only [Except.ok.injEq] at hr
        subst hr
        exact ⟨_, rfl, rfl⟩


theorem getAddressDataLoop_quiet (walletInfo : WalletInfo) (BITBOX : BB Seed Node) (n : Nat) :
    ∀ (m i : Nat) (acc : List AddressDetails), n - i = m →
      (UpdateBalances.getAddressDataLoop walletInfo BITBOX n i acc).Quiet := by
  intro m
  induction m with
  | zero =>
    intro i acc hm w
    rw [getAddressDataLoop_done walletInfo BITBOX n i acc w (by omega)]
    exact ⟨rfl, rfl, [], by simp, by simp⟩
  | succ m ih =>
    intro i acc hm
    have hi : i < n := by omega
    rw [UpdateBalances.getAddressDataLoop]
    simp only [hi, if_true, Eff.bind_eq]
    refine Eff.Quiet.of_andThen (generateAddress_quiet _ _ _) (fun _ => ?_)
    refine Eff.Quiet.of_andThen (addressDetails_quiet _ _) (fun l => ?_)
    cases l with
    | nil => exact Eff.Quiet.of_raise _
    | cons d rest => exact ih (i + 1) _ (by omega)

theorem getAddressDataLoop_ok (walletInfo : WalletInfo) (BITBOX : BB Seed Node) (n : Nat) :
    ∀ (m i : Nat) (acc : List AddressDetails) (w : World) (out : List AddressDetails),
      n - i = m →
      (UpdateBalances.getAddressDataLoop walletInfo BITBOX n i acc w).1 = .ok out →
      out.length = acc.length + (n - i) ∧
      (∀ t, t < acc.length → out[t]? = acc[t]?) ∧
      ∀ t, t < n - i → ∃ d, Spec.response BITBOX walletInfo (w.clock + t) (i + t) = .ok d ∧
        out[acc.length + t]? = some { d with addressIndex := some (i + t) } := by
  intro m
  induction m with
  | zero =>
    intro i acc w out hm h
    rw [getAddressDataLoop_done walletInfo BITBOX n i acc w (by omega)] at h
    simp only [Except.ok.injEq] at h
    subst h
    refine ⟨by omega, fun _ _ => rfl, fun t ht => ?_⟩
    omega
  | succ m ih =>
    intro i acc w out hm h
    have hi : i < n := by omega
    cases hr : Spec.response BITBOX walletInfo w.clock i with
    | error e =>
      rw [getAddressDataLoop_step_error walletInfo BITBOX n i acc w hi e hr] at h
      simp at h
    | ok d =>
      obtain ⟨w1, hc, hstep⟩ := getAddressDataLoop_step_ok walletInfo BITBOX n i acc w hi d hr
      rw [hstep] at h
      obtain ⟨hlen, hpre, hrest⟩ := ih (i + 1) _ w1 out (by omega) h
      simp only [List.length_append, List.length_singleton] at hlen hpre hrest
      refine ⟨by omega, fun t ht => ?_, fun t ht => ?_⟩
      · rw [hpre t (by omega), List.getElem?_append_left ht]
      · cases t with
        | zero =>
          refine ⟨d, by simpa using hr, ?_⟩
          rw [Nat.add_zero, hpre acc.length (by omega)]
          simp
        | succ t =>
          obtain ⟨d1, hd1, hget⟩ := hrest t (by omega)
          refine ⟨d1, ?_, ?_⟩
          · rw [← hd1]
            congr 1 <;> omega
          · rw [show acc.length + (t + 1) = acc.length + 1 + t by omega,
              show i + (t + 1) = i + 1 + t by omega]
            exact hget

theorem getAddressDataLoop_error (walletInfo : WalletInfo) (BITBOX : BB Seed Node) (n : Nat)
    (e : Error) :
    ∀ (k i : Nat) (acc : List AddressDetails) (w : World),
      i + k < n →
      (∀ t, t < k → ∃ d, Spec.response BITBOX walletInfo (w.clock + t) (i + t) = .ok d) →
      Spec.response BITBOX walletInfo (w.clock + k) (i + k) = .error e →
      (UpdateBalances.getAddressDataLoop walletInfo BITBOX n i acc w).1 = .error e := by
  intro k
  induction k with
  | zero =>
    intro i acc w hk _ he
    exact getAddressDataLoop_step_error walletInfo BITBOX n i acc w (by omega) e (by simpa using he)
  | succ k ih =>
    intro i acc w hk hok he
    obtain ⟨d, hd⟩ := hok 0 (by omega)
    obtain ⟨w1, hc, hstep⟩ :=
      getAddressDataLoop_step_ok walletInfo BITBOX n i acc w (by omega) d (by simpa using hd)
    rw [hstep]
    refine ih (i + 1) _ w1 (by omega) (fun t ht => ?_) ?_
    · obtain ⟨d1, hd1⟩ := hok (t + 1) (by omega)
      refine ⟨d1, ?_⟩
      rw [← hd1]
      congr 1 <;> omega
    · rw [← he]
      congr 1 <;> omega


theorem generateHasBalanceLoop_eq (addressData : List AddressDetails) :
    ∀ (m i : Nat) (acc : List HasBalanceEntry), addressData.length - i = m →
      UpdateBalances.generateHasBalanceLoop addressData i acc =
        acc ++ (((addressData.drop i).enumFrom i).filter
          (fun p => decide (Spec.hasFunds p.2))).map (fun p => Spec.entryOf p.1 p.2) := by
  intro m
  induction m with
  | zero =>
    intro i acc hm
    rw [UpdateBalances.generateHasBalanceLoop]
    have hi : ¬ i < addressData.length := by omega
    simp [hi, List.drop_eq_nil_of_le (Nat.le_of_not_lt hi)]
  | succ m ih =>
    intro i acc hm
    have hi : i < addressData.length := by omega
    rw [UpdateBalances.generateHasBalanceLoop]
    simp only [hi, dite_true]
    rw [List.drop_eq_getElem_cons hi, List.enumFrom_cons]
    by_cases hf : Spec.hasFunds addressData[i]
    · have hf2 : addressData[i].balance > 0 ∨ addressData[i].unconfirmedBalance > 0 := hf
      rw [if_pos hf2, ih (i + 1) _ (by omega)]
      simp [List.filter_cons, hf, Spec.entryOf]
    · have hf2 : ¬ (addressData[i].balance > 0 ∨ addressData[i].unconfirmedBalance > 0) := hf
      rw [if_neg hf2, ih (i + 1) _ (by omega)]
      simp [List.filter_cons, hf]

theorem generateHasBalance_eq (addressData : List AddressDetails) :
    UpdateBalances.generateHasBalance addressData =
      (addressData.enum.filter (fun p => decide (Spec.hasFunds p.2))).map
        (fun p => Spec.entryOf p.1 p.2) := by
  unfold UpdateBalances.generateHasBalance
  rw [generateHasBalanceLoop_eq addressData _ 0 [] rfl]
  simp [List.enum_eq_enumFrom]

theorem mem_generateHasBalance (addressData : List AddressDetails) (e : HasBalanceEntry) :
    e ∈ UpdateBalances.generateHasBalance addressData ↔
      ∃ i d, addressData[i]? = some d ∧ Spec.hasFunds d ∧ e = Spec.entryOf i d := by
  rw [generateHasBalance_eq]
  simp only [List.mem_map, List.mem_filter, decide_eq_true_eq, Prod.exists]
  constructor
  · rintro ⟨i, d, ⟨hmem, hf⟩, rfl⟩
    exact ⟨i, d, List.mk_mem_enum_iff_getElem?.1 hmem, hf, rfl⟩
  · rintro ⟨i, d, hget, hf, rfl⟩
    exact ⟨i, d, ⟨List.mk_mem_enum_iff_getElem?.2 hget, hf⟩, rfl⟩

theorem generateHasBalance_index_sorted (addressData : List AddressDetails) :
    ((UpdateBalances.generateHasBalance addressData).map (fun e => e.index)).Pairwise
      (fun a b => a < b) := by
  rw [generateHasBalance_eq, List.map_map]
  have hsub : List.Sublist
      ((addressData.enum.filter (fun p => decide (Spec.hasFunds p.2))).map Prod.fst)
      (addressData.enum.map Prod.fst) :=
    List.Sublist.map _ (List.filter_sublist _)
  rw [List.enum_map_fst] at hsub
  exact List.Pairwise.sublist hsub (List.pairwise_lt_range _)

theorem sumConfirmedBalancesLoop_eq (hasBalance : List HasBalanceEntry) :
    ∀ (m i : Nat) (total : ℚ), hasBalance.length - i = m →
      UpdateBalances.sumConfirmedBalancesLoop hasBalance i total =
        (hasBalance.drop i).foldl (fun t e => JS.add t e.balance) total := by
  intro m
  induction m with
  | zero =>
    intro i total hm
    rw [UpdateBalances.sumConfirmedBalancesLoop]
    have hi : ¬ i < hasBalance.length := by omega
    simp [hi, List.drop_eq_nil_of_le (Nat.le_of_not_lt hi)]
  | succ m ih =>
    intro i total hm
    have hi : i < hasBalance.length := by omega
    rw [UpdateBalances.sumConfirmedBalancesLoop]
    simp only [hi, dite_true]
    rw [ih (i + 1) _ (by omega), List.drop_eq_getElem_cons hi, List.foldl_cons]

theorem sumConfirmedBalances_eq (hasBalance : List HasBalanceEntry) :
    UpdateBalances.sumConfirmedBalances hasBalance =
      JS.div (JS.floor (JS.mul (hasBalance.foldl (fun t e => JS.add t e.balance) 0) 100000000))
        100000000 := by
  unfold UpdateBalances.sumConfirmedBalances
  rw [sumConfirmedBalancesLoop_eq hasBalance _ 0 0 rfl]
  simp

theorem JS.toDouble_zero : JS.toDouble 0 = 0 := by
  simp [JS.toDouble]

theorem JS.log_eq (x : ℚ) (e : ℤ) (h0 : 0 < x) (h1 : (2 : ℚ) ^ e ≤ x)
    (h2 : x < (2 : ℚ) ^ (e + 1)) : Int.log 2 |x| = e := by
  rw [abs_of_pos h0]
  have a := (Int.zpow_le_iff_le_log (b := 2) (by norm_num) h0 (x := e)).1 (by exact_mod_cast h1)
  have b := (Int.lt_zpow_iff_log_lt (b := 2) (by norm_num) h0 (x := e + 1)).1
    (by exact_mod_cast h2)
  omega

theorem JS.roundHalfEven_eq (x : ℚ) (f : ℤ) (h1 : (f : ℚ) ≤ x) (h2 : x < f + 1) :
    JS.roundHalfEven x =
      if x - f < 1 / 2 then f else if 1 / 2 < x - f then f + 1
      else if f % 2 = 0 then f else f + 1 := by
  have hf : ⌊x⌋ = f := Int.floor_eq_iff.2 ⟨h1, h2⟩
  simp only [JS.roundHalfEven, hf]

/-- The double of a positive `x` in the binade of exponent `e`. -/
theorem JS.toDouble_eq (x : ℚ) (e q m : ℤ) (h0 : 0 < x) (h1 : (2 : ℚ) ^ e ≤ x)
    (h2 : x < (2 : ℚ) ^ (e + 1)) (hq : max (e - 52) (-1074) = q)
    (hm : JS.roundHalfEven (x / 2 ^ q) = m) : JS.toDouble x = (m : ℚ) * 2 ^ q := by
  unfold JS.toDouble
  rw [if_neg (ne_of_gt h0), JS.log_eq x e h0 h1 h2, hq, hm]

theorem sumConfirmedBalances_nil : UpdateBalances.sumConfirmedBalances [] = 0 := by
  rw [sumConfirmedBalances_eq]
  simp [JS.div, JS.floor, JS.mul, JS.toDouble_zero]

/-- What `getAddress` does once the wallet is loaded and the leaf derived. -/
theorem getAddress_eq (BITBOX : BB Seed Node) (name : String) (w : World)
    (walletInfo : WalletInfo) (change : Node) (hname : name ≠ "")
    (hw : w.wallets name = some walletInfo)
    (hleaf : Spec.deriveLeaf BITBOX walletInfo.mnemonic walletInfo.network
      walletInfo.nextAddress = .ok change) :
    GetAddress.getAddress (some name) BITBOX w =
      if w.unwritable name then
        (.error .writeRejected,
          { w with trace := w.trace ++
              ([.require name, .toSeed walletInfo.mnemonic,
                .fromSeed (if walletInfo.network = "testnet" then some "testnet" else none),
                .derivePath "m/44'/145'/0'",
                .derivePath ("0/" ++ toString walletInfo.nextAddress)] ++
              (if walletInfo.nextAddress + 1 > 100 then [.consoleLog advisory] else []) ++
              [.writeFile name { walletInfo with nextAddress := walletInfo.nextAddress + 1 },
                .consoleError]) })
      else
        (match BITBOX.toCashAddress change with
          | .error msg => .error (.sdk msg)
          | .ok a =>
            match BITBOX.toLegacyAddress change with
            | .error msg => .error (.sdk msg)
            | .ok _ => .ok a,
          { w with
            wallets := Function.update w.wallets name
              (some { walletInfo with nextAddress := walletInfo.nextAddress + 1 })
            trace := w.trace ++
              ([.require name, .toSeed walletInfo.mnemonic,
                .fromSeed (if walletInfo.network = "testnet" then some "testnet" else none),
                .derivePath "m/44'/145'/0'",
                .derivePath ("0/" ++ toString walletInfo.nextAddress)] ++
              (if walletInfo.nextAddress + 1 > 100 then [.consoleLog advisory] else []) ++
              [.writeFile name { walletInfo with nextAddress := walletInfo.nextAddress + 1 }] ++
              (match BITBOX.toCashAddress change with
                | .error _ => [.toCashAddress]
                | .ok _ => [.toCashAddress, .toLegacyAddress])) }) := by
  unfold Spec.deriveLeaf at hleaf
  unfold GetAddress.getAddress
  simp only [hname, if_false, Eff.bind_eq, Eff.pure_eq]
  cases h1 : BITBOX.toSeed walletInfo.mnemonic with
  | error m => simp [h1] at hleaf
  | ok seed =>
    rw [h1] at hleaf
    simp only [] at hleaf
    by_cases hn : walletInfo.network = "testnet"
    · rw [if_pos hn] at hleaf
      cases h2 : BITBOX.fromSeed seed (some "testnet") with
      | error m => simp [h2] at hleaf
      | ok master =>
        rw [h2] at hleaf
        simp only [] at hleaf
        cases h3 : BITBOX.derivePath master "m/44'/145'/0'" with
        | error m => simp [h3] at hleaf
        | ok account =>
          rw [h3] at hleaf
          simp only [] at hleaf
          by_cases hu : w.unwritable name = true <;>
          by_cases hadv : walletInfo.nextAddress + 1 > 100 <;>
          cases h5 : BITBOX.toCashAddress change <;>
          cases h6 : BITBOX.toLegacyAddress change <;>
          simp [Eff.andThen, Eff.call, Eff.ret, Eff.emit, GetAddress.openWallet,
            GetAddress.saveWallet, hw, h1, hn, h2, h3, hleaf, hu, hadv, h5, h6]
    · rw [if_neg hn] at hleaf
      cases h2 : BITBOX.fromSeed seed none with
      | error m => simp [h2] at hleaf
      | ok master =>
        rw [h2] at hleaf
        simp only [] at hleaf
        cases h3 : BITBOX.derivePath master "m/44'/145'/0'" with
        | error m => simp [h3] at hleaf
        | ok account =>
          rw [h3] at hleaf
          simp only [] at hleaf
          by_cases hu : w.unwritable name = true <;>
          by_cases hadv : walletInfo.nextAddress + 1 > 100 <;>
          cases h5 : BITBOX.toCashAddress change <;>
          cases h6 : BITBOX.toLegacyAddress change <;>
          simp [Eff.andThen, Eff.call, Eff.ret, Eff.emit, GetAddress.openWallet,
            GetAddress.saveWallet, hw, h1, hn, h2, h3, hleaf, hu, hadv, h5, h6]


theorem getAddress_no_name (BITBOX : BB Seed Node) (name : Option String) (w : World)
    (h : name = none ∨ name = some "") :
    GetAddress.getAddress name BITBOX w = (.error .mustSpecifyWallet, w) := by
  rcases h with rfl | rfl <;> simp [GetAddress.getAddress, Eff.raise]

theorem getAddress_open_error (BITBOX : BB Seed Node) (name : String) (w : World)
    (hname : name ≠ "") (hw : w.wallets name = none) :
    GetAddress.getAddress (some name) BITBOX w =
      (.error (.couldNotOpen name), { w with trace := w.trace ++ [.require name] }) := by
  unfold GetAddress.getAddress
  simp [hname, Eff.bind_eq, Eff.andThen, GetAddress.openWallet, hw]

theorem getAddress_leaf_error (BITBOX : BB Seed Node) (name : String) (w : World)
    (walletInfo : WalletInfo) (msg : String) (hname : name ≠ "")
    (hw : w.wallets name = some walletInfo)
    (hleaf : Spec.deriveLeaf BITBOX walletInfo.mnemonic walletInfo.network
      walletInfo.nextAddress = .error msg) :
    (GetAddress.getAddress (some name) BITBOX w).1 = .error (.sdk msg) ∧
      (GetAddress.getAddress (some name) BITBOX w).2.wallets = w.wallets := by
  unfold Spec.deriveLeaf at hleaf
  unfold GetAddress.getAddress
  simp only [hname, if_false, Eff.bind_eq, Eff.pure_eq]
  cases h1 : BITBOX.toSeed walletInfo.mnemonic with
  | error m =>
    rw [h1] at hleaf
    simp only [Except.error.injEq] at hleaf
    subst hleaf
    simp [Eff.andThen, Eff.call, GetAddress.openWallet, hw, h1]
  | ok seed =>
    rw [h1] at hleaf
    simp only [] at hleaf
    by_cases hn : walletInfo.network = "testnet"
    · rw [if_pos hn] at hleaf
      cases h2 : BITBOX.fromSeed seed (some "testnet") with
      | error m =>
        rw [h2] at hleaf
        simp only [Except.error.injEq] at hleaf
        subst hleaf
        simp [Eff.andThen, Eff.call, GetAddress.openWallet, hw, h1, hn, h2]
      | ok master =>
        rw [h2] at hleaf
        simp only [] at hleaf
        cases h3 : BITBOX.derivePath master "m/44'/145'/0'" with
        | error m =>
          rw [h3] at hleaf
          simp only [Except.error.injEq] at hleaf
          subst hleaf
          simp [Eff.andThen, Eff.call, GetAddress.openWallet, hw, h1, hn, h2, h3]
        | ok account =>
          rw [h3] at hleaf
          simp only [] at hleaf
          simp [Eff.andThen, Eff.call, GetAddress.openWallet, hw, h1, hn, h2, h3, hleaf]
    · rw [if_neg hn] at hleaf
      cases h2 : BITBOX.fromSeed seed none with
      | error m =>
        rw [h2] at hleaf
        simp only [Except.error.injEq] at hleaf
        subst hleaf
        simp [Eff.andThen, Eff.call, GetAddress.openWallet, hw, h1, hn, h2]
      | ok master =>
        rw [h2] at hleaf
        simp only [] at hleaf
        cases h3 : BITBOX.derivePath master "m/44'/145'/0'" with
        | error m =>
          rw [h3] at hleaf
          simp only [Except.error.injEq] at hleaf
          subst hleaf
          simp [Eff.andThen, Eff.call, GetAddress.openWallet, hw, h1, hn, h2, h3]
        | ok account =>
          rw [h3] at hleaf
          simp only [] at hleaf
          simp [Eff.andThen, Eff.call, GetAddress.openWallet, hw, h1, hn, h2, h3, hleaf]


theorem getAddress_ok_inv (BITBOX : BB Seed Node) (name : String) (w : World)
    (walletInfo : WalletInfo) (a : String) (hw : w.wallets name = some walletInfo)
    (h : (GetAddress.getAddress (some name) BITBOX w).1 = .ok a) :
    name ≠ "" ∧ w.unwritable name = false ∧
      ∃ change, Spec.deriveLeaf BITBOX walletInfo.mnemonic walletInfo.network
          walletInfo.nextAddress = .ok change ∧
        BITBOX.toCashAddress change = .ok a ∧
        ∃ legacy, BITBOX.toLegacyAddress change = .ok legacy := by
  have hname : name ≠ "" := by
    intro h0
    rw [getAddress_no_name BITBOX (some name) w (Or.inr (by rw [h0]))] at h
    simp at h
  refine ⟨hname, ?_⟩
  cases hleaf : Spec.deriveLeaf BITBOX walletInfo.mnemonic walletInfo.network
      walletInfo.nextAddress with
  | error msg =>
    rw [(getAddress_leaf_error BITBOX name w walletInfo msg hname hw hleaf).1] at h
    simp at h
  | ok change =>
    rw [getAddress_eq BITBOX name w walletInfo change hname hw hleaf] at h
    cases hu : w.unwritable name with
    | true => simp [hu] at h
    | false =>
      refine ⟨rfl, change, rfl, ?_⟩
      simp only [hu, Bool.false_eq_true, if_false] at h
      cases h5 : BITBOX.toCashAddress change with
      | error msg => simp [h5] at h
      | ok a1 =>
        cases h6 : BITBOX.toLegacyAddress change with
        | error msg => simp [h5, h6] at h
        | ok legacy =>
          simp only [h5, h6, Except.ok.injEq] at h
          exact ⟨by rw [h], legacy, rfl⟩

theorem deriveAddress_of_leaf (BITBOX : BB Seed Node) (mnemonic network : String) (i : Nat)
    (change : Node) (h : Spec.deriveLeaf BITBOX mnemonic network i = .ok change) :
    Spec.deriveAddress BITBOX mnemonic network i = BITBOX.toCashAddress change := by
  unfold Spec.deriveAddress
  rw [h]

theorem deriveLeaf_of_neverThrows (BITBOX : BB Seed Node) (h : BITBOX.NeverThrows)
    (mnemonic network : String) (i : Nat) :
    ∃ change, Spec.deriveLeaf BITBOX mnemonic network i = .ok change := by
  obtain ⟨h1, h2, h3, -, -⟩ := h
  obtain ⟨seed, hs⟩ := h1 mnemonic
  obtain ⟨master, hm⟩ := h2 seed (if network = "testnet" then some "testnet" else none)
  obtain ⟨account, ha⟩ := h3 master "m/44'/145'/0'"
  obtain ⟨change, hc⟩ := h3 account ("0/" ++ toString i)
  exact ⟨change, by simp [Spec.deriveLeaf, hs, hm, ha, hc]⟩

/-- One call of `getAddress` with an SDK and a store that do not fail. -/
theorem getAddress_success (BITBOX : BB Seed Node) (h : BITBOX.NeverThrows) (name : String)
    (w : World) (walletInfo : WalletInfo) (hname : name ≠ "")
    (hw : w.wallets name = some walletInfo) (hu : w.unwritable name = false) :
    ∃ a, Spec.deriveAddress BITBOX walletInfo.mnemonic walletInfo.network
        walletInfo.nextAddress = .ok a ∧
      (GetAddress.getAddress (some name) BITBOX w).1 = .ok a ∧
      (GetAddress.getAddress (some name) BITBOX w).2.wallets =
        Function.update w.wallets name
          (some { walletInfo with nextAddress := walletInfo.nextAddress + 1 }) ∧
      (GetAddress.getAddress (some name) BITBOX w).2.unwritable = w.unwritable ∧
      (GetAddress.getAddress (some name) BITBOX w).2.trace.count (.consoleLog advisory) =
        w.trace.count (.consoleLog advisory) +
          (if walletInfo.nextAddress + 1 > 100 then 1 else 0) := by
  obtain ⟨change, hleaf⟩ := deriveLeaf_of_neverThrows BITBOX h walletInfo.mnemonic
    walletInfo.network walletInfo.nextAddress
  obtain ⟨-, -, -, h4, h5⟩ := h
  obtain ⟨a, ha⟩ := h4 change
  obtain ⟨legacy, hl⟩ := h5 change
  refine ⟨a, by rw [deriveAddress_of_leaf BITBOX _ _ _ change hleaf, ha], ?_⟩
  rw [getAddress_eq BITBOX name w walletInfo change hname hw hleaf]
  simp only [hu, Bool.false_eq_true, if_false, ha, hl, true_and]
  by_cases hadv : walletInfo.nextAddress + 1 > 100
  · simp [hadv, List.count_append, List.count_cons]
  · simp [hadv, List.count_append, List.count_cons]

theorem getAddressTimes_spec (BITBOX : BB Seed Node) (h : BITBOX.NeverThrows) (name : String)
    (hname : name ≠ "") :
    ∀ (N : Nat) (w : World) (walletInfo : WalletInfo),
      w.wallets name = some walletInfo → w.unwritable name = false →
      (getAddressTimes (some name) BITBOX N w).2.wallets name =
        some { walletInfo with nextAddress := walletInfo.nextAddress + N } ∧
      (getAddressTimes (some name) BITBOX N w).1.length = N ∧
      (∀ k, k < N → ∃ a,
        Spec.deriveAddress BITBOX walletInfo.mnemonic walletInfo.network
          (walletInfo.nextAddress + k) = .ok a ∧
        (getAddressTimes (some name) BITBOX N w).1[k]? = some (.ok a)) ∧
      (getAddressTimes (some name) BITBOX N w).2.trace.count (.consoleLog advisory) =
        w.trace.count (.consoleLog advisory) +
          ((walletInfo.nextAddress + N - 100) - (walletInfo.nextAddress - 100)) := by
  intro N
  induction N with
  | zero =>
    intro w walletInfo hw hu
    refine ⟨by simpa [getAddressTimes] using hw, rfl, fun k hk => absurd hk (by omega), ?_⟩
    simp [getAddressTimes]
  | succ N ih =>
    intro w walletInfo hw hu
    obtain ⟨a, ha, hres, hwal, hunw, hcnt⟩ :=
      getAddress_success BITBOX h name w walletInfo hname hw hu
    have hw1 : (GetAddress.getAddress (some name) BITBOX w).2.wallets name =
        some { walletInfo with nextAddress := walletInfo.nextAddress + 1 } := by
      rw [hwal, Function.update_same]
    have hu1 : (GetAddress.getAddress (some name) BITBOX w).2.unwritable name = false := by
      rw [hunw, hu]
    obtain ⟨i1, i2, i3, i4⟩ := ih _ _ hw1 hu1
    simp only [getAddressTimes]
    refine ⟨?_, by simp [i2], fun k hk => ?_, ?_⟩
    · rw [i1]
      simp [Nat.add_assoc, Nat.add_comm 1 N]
    · cases k with
      | zero => exact ⟨a, by simpa using ha, by simp [hres]⟩
      | succ k =>
        obtain ⟨b, hb, hget⟩ := i3 k (by omega)
        refine ⟨b, ?_, by simpa using hget⟩
        rw [← hb]
        congr 1
        simp only []
        omega
    · rw [i4, hcnt]
      simp only []
      split <;> omega

theorem getAddressData_quiet (walletInfo : WalletInfo) (BITBOX : BB Seed Node) :
    (UpdateBalances.getAddressData walletInfo BITBOX).Quiet :=
  getAddressDataLoop_quiet walletInfo BITBOX walletInfo.nextAddress _ 0 [] rfl

theorem getAddressData_ok (walletInfo : WalletInfo) (BITBOX : BB Seed Node) (w : World)
    (out : List AddressDetails)
    (h : (UpdateBalances.getAddressData walletInfo BITBOX w).1 = .ok out) :
    out.length = walletInfo.nextAddress ∧
      ∀ t, t < walletInfo.nextAddress → ∃ d,
        Spec.response BITBOX walletInfo (w.clock + t) t = .ok d ∧
        out[t]? = some { d with addressIndex := some t } := by
  obtain ⟨h1, -, h3⟩ :=
    getAddressDataLoop_ok walletInfo BITBOX walletInfo.nextAddress _ 0 [] w out rfl h
  refine ⟨by simpa using h1, fun t ht => ?_⟩
  obtain ⟨d, hd, hget⟩ := h3 t (by simpa using ht)
  exact ⟨d, by simpa using hd, by simpa using hget⟩

theorem getAddressData_error (walletInfo : WalletInfo) (BITBOX : BB Seed Node) (w : World)
    (k : Nat) (e : Error) (hk : k < walletInfo.nextAddress)
    (hok : ∀ t, t < k → ∃ d, Spec.response BITBOX walletInfo (w.clock + t) t = .ok d)
    (he : Spec.response BITBOX walletInfo (w.clock + k) k = .error e) :
    (UpdateBalances.getAddressData walletInfo BITBOX w).1 = .error e := by
  refine getAddressDataLoop_error walletInfo BITBOX walletInfo.nextAddress e k 0 [] w
    (by simpa using hk) (fun t ht => ?_) (by simpa using he)
  obtain ⟨d, hd⟩ := hok t ht
  exact ⟨d, by simpa using hd⟩

theorem updateBalances_ok_inv (walletInfo : WalletInfo) (BITBOX : BB Seed Node) (w : World)
    (updated : WalletInfo)
    (h : (UpdateBalances.updateBalances walletInfo BITBOX w).1 = .ok updated) :
    ∃ addressData, (UpdateBalances.getAddressData walletInfo BITBOX w).1 = .ok addressData ∧
      updated = { walletInfo with
        balance := UpdateBalances.sumConfirmedBalances
          (UpdateBalances.generateHasBalance addressData)
        hasBalance := UpdateBalances.generateHasBalance addressData } ∧
      w.unwritable walletInfo.name = false ∧
      (UpdateBalances.updateBalances walletInfo BITBOX w).2.wallets =
        Function.update w.wallets walletInfo.name (some updated) ∧
      (UpdateBalances.updateBalances walletInfo BITBOX w).2.trace =
        (UpdateBalances.getAddressData walletInfo BITBOX w).2.trace ++
          [.writeFile walletInfo.name updated] := by
  obtain ⟨q1, q2, -⟩ := getAddressData_quiet walletInfo BITBOX w
  unfold UpdateBalances.updateBalances at h ⊢
  simp only [Eff.bind_eq, Eff.pure_eq, Eff.andThen] at h ⊢
  rcases hg : UpdateBalances.getAddressData walletInfo BITBOX w with ⟨r, w1⟩
  rw [hg] at h q1 q2
  simp only [] at h q1 q2 ⊢
  cases r with
  | error e => simp at h
  | ok addressData =>
    simp only [appUtil.saveWallet] at h ⊢
    cases hu : w1.unwritable walletInfo.name with
    | true => simp [hu] at h
    | false =>
      simp only [hu, Bool.false_eq_true, if_false, Eff.ret, Except.ok.injEq] at h ⊢
      subst h
      exact ⟨addressData, rfl, rfl, by rw [← q2, hu], by rw [q1], rfl⟩

theorem updateBalances_of_error (walletInfo : WalletInfo) (BITBOX : BB Seed Node) (w : World)
    (e : Error) (h : (UpdateBalances.getAddressData walletInfo BITBOX w).1 = .error e) :
    UpdateBalances.updateBalances walletInfo BITBOX w =
      (.error e, (UpdateBalances.getAddressData walletInfo BITBOX w).2) := by
  unfold UpdateBalances.updateBalances
  simp only [Eff.bind_eq, Eff.pure_eq, Eff.andThen]
  rcases hg : UpdateBalances.getAddressData walletInfo BITBOX w with ⟨r, w1⟩
  rw [hg] at h
  simp only [] at h
  subst h
  rfl

end Lemmas

/-! ## The claims -/

section Claims

variable {Seed Node : Type}

theorem demoBB_neverThrows (table : Nat → Except String (List AddressDetails)) :
    (demoBB table).NeverThrows := by
  refine ⟨fun m => ⟨m, rfl⟩, fun s net => ?_, fun n p => ⟨_, rfl⟩, fun n => ⟨n, rfl⟩,
    fun n => ⟨n, rfl⟩⟩
  cases net with
  | none => exact ⟨s, rfl⟩
  | some n => exact ⟨_, rfl⟩

/-- 0.5 is a double. -/
theorem double_half : JS.toDouble (1 / 2) = 1 / 2 := by
  rw [JS.toDouble_eq (1 / 2) (-1) (-53) 4503599627370496 (by norm_num) (by norm_num) (by norm_num)
    (by decide)
    (by rw [JS.roundHalfEven_eq _ 4503599627370496 (by norm_num) (by norm_num)]; norm_num)]
  norm_num

/-- 0 + 0.5 in doubles. -/
theorem double_zero_add_half : JS.toDouble (0 + 1 / 2) = 1 / 2 := by
  rw [JS.toDouble_eq (0 + 1 / 2) (-1) (-53) 4503599627370496 (by norm_num) (by norm_num) (by norm_num)
    (by decide)
    (by rw [JS.roundHalfEven_eq _ 4503599627370496 (by norm_num) (by norm_num)]; norm_num)]
  norm_num

/-- 0.5 * 100000000 in doubles. -/
theorem double_half_mul : JS.toDouble (1 / 2 * 100000000) = 50000000 := by
  rw [JS.toDouble_eq (1 / 2 * 100000000) (25) (-27) 6710886400000000 (by norm_num) (by norm_num) (by norm_num)
    (by decide)
    (by rw [JS.roundHalfEven_eq _ 6710886400000000 (by norm_num) (by norm_num)]; norm_num)]
  norm_num

/-- 50000000 / 100000000 in doubles. -/
theorem double_half_div : JS.toDouble (((50000000 : ℤ) : ℚ) / 100000000) = 1 / 2 := by
  rw [JS.toDouble_eq (((50000000 : ℤ) : ℚ) / 100000000) (-1) (-53) 4503599627370496 (by norm_num) (by norm_num) (by norm_num)
    (by decide)
    (by rw [JS.roundHalfEven_eq _ 4503599627370496 (by norm_num) (by norm_num)]; norm_num)]
  norm_num

/-- The double read from `0.3`. -/
theorem double_three_tenths : JS.toDouble (3 / 10) = 5404319552844595 / 18014398509481984 := by
  rw [JS.toDouble_eq (3 / 10) (-2) (-54) 5404319552844595 (by norm_num) (by norm_num) (by norm_num)
    (by decide)
    (by rw [JS.roundHalfEven_eq _ 5404319552844595 (by norm_num) (by norm_num)]; norm_num)]
  norm_num

/-- The double read from `0.6`. -/
theorem double_six_tenths : JS.toDouble (3 / 5) = 5404319552844595 / 9007199254740992 := by
  rw [JS.toDouble_eq (3 / 5) (-1) (-53) 5404319552844595 (by norm_num) (by norm_num) (by norm_num)
    (by decide)
    (by rw [JS.roundHalfEven_eq _ 5404319552844595 (by norm_num) (by norm_num)]; norm_num)]
  norm_num

/-- 0 + 0.3 in doubles. -/
theorem double_zero_add_three_tenths : JS.toDouble (0 + 5404319552844595 / 18014398509481984) = 5404319552844595 / 18014398509481984 := by
  rw [JS.toDouble_eq (0 + 5404319552844595 / 18014398509481984) (-2) (-54) 5404319552844595 (by norm_num) (by norm_num) (by norm_num)
    (by decide)
    (by rw [JS.roundHalfEven_eq _ 5404319552844595 (by norm_num) (by norm_num)]; norm_num)]
  norm_num

/-- 0.3 + 0.6 in doubles is 0.8999999999999999: the exact sum lies halfway between two doubles and goes to the even one, below 0.9. -/
theorem double_three_add_six_tenths : JS.toDouble (5404319552844595 / 18014398509481984 + 5404319552844595 / 9007199254740992) = 2026619832316723 / 2251799813685248 := by
  rw [JS.toDouble_eq (5404319552844595 / 18014398509481984 + 5404319552844595 / 9007199254740992) (-1) (-53) 8106479329266892 (by norm_num) (by norm_num) (by norm_num)
    (by decide)
    (by rw [JS.roundHalfEven_eq _ 8106479329266892 (by norm_num) (by norm_num)]; norm_num)]
  norm_num

/-- 0.8999999999999999 * 100000000 in doubles is 89999999.99999999. -/
theorem double_sum_mul : JS.toDouble (2026619832316723 / 2251799813685248 * 100000000) = 6039797759999999 / 67108864 := by
  rw [JS.toDouble_eq (2026619832316723 / 2251799813685248 * 100000000) (26) (-26) 6039797759999999 (by norm_num) (by norm_num) (by norm_num)
    (by decide)
    (by rw [JS.roundHalfEven_eq _ 6039797759999999 (by norm_num) (by norm_num)]; norm_num)]
  norm_num

/-- 89999999 / 100000000 in doubles, the number printed 0.89999999. -/
theorem double_floor_div : JS.toDouble (((89999999 : ℤ) : ℚ) / 100000000) = 2026619809798725 / 2251799813685248 := by
  rw [JS.toDouble_eq (((89999999 : ℤ) : ℚ) / 100000000) (-1) (-53) 8106479239194900 (by norm_num) (by norm_num) (by norm_num)
    (by decide)
    (by rw [JS.roundHalfEven_eq _ 8106479239194900 (by norm_num) (by norm_num)]; norm_num)]
  norm_num

/-- 0.3 * 100000000 in doubles is 30000000. -/
theorem double_three_tenths_mul : JS.toDouble (5404319552844595 / 18014398509481984 * 100000000) = 30000000 := by
  rw [JS.toDouble_eq (5404319552844595 / 18014398509481984 * 100000000) (24) (-28) 8053063680000000 (by norm_num) (by norm_num) (by norm_num)
    (by decide)
    (by rw [JS.roundHalfEven_eq _ 8053063679999999 (by norm_num) (by norm_num)]; norm_num)]
  norm_num

/-- 0.6 * 100000000 in doubles is 60000000. -/
theorem double_six_tenths_mul : JS.toDouble (5404319552844595 / 9007199254740992 * 100000000) = 60000000 := by
  rw [JS.toDouble_eq (5404319552844595 / 9007199254740992 * 100000000) (25) (-27) 8053063680000000 (by norm_num) (by norm_num) (by norm_num)
    (by decide)
    (by rw [JS.roundHalfEven_eq _ 8053063679999999 (by norm_num) (by norm_num)]; norm_num)]
  norm_num

/-- 90000000 / 100000000 in doubles, the number printed 0.9. -/
theorem double_nine_tenths : JS.toDouble (((90000000 : ℤ) : ℚ) / 100000000) = 8106479329266893 / 9007199254740992 := by
  rw [JS.toDouble_eq (((90000000 : ℤ) : ℚ) / 100000000) (-1) (-53) 8106479329266893 (by norm_num) (by norm_num) (by norm_num)
    (by decide)
    (by rw [JS.roundHalfEven_eq _ 8106479329266892 (by norm_num) (by norm_num)]; norm_num)]
  norm_num

/-- 0.89999999 * 100000000 in doubles is 89999999. -/
theorem double_stored_mul : JS.toDouble (2026619809798725 / 2251799813685248 * 100000000) = 89999999 := by
  rw [JS.toDouble_eq (2026619809798725 / 2251799813685248 * 100000000) (26) (-26) 6039797692891136 (by norm_num) (by norm_num) (by norm_num)
    (by decide)
    (by rw [JS.roundHalfEven_eq _ 6039797692891135 (by norm_num) (by norm_num)]; norm_num)]
  norm_num


theorem sumConfirmedBalances_half :
    UpdateBalances.sumConfirmedBalances [Spec.entryOf 1 (demoDetails (1 / 2) 0)] = 1 / 2 := by
  rw [sumConfirmedBalances_eq]
  simp only [Spec.entryOf, demoDetails, List.foldl_cons, List.foldl_nil, JS.add, JS.mul, JS.div,
    JS.floor]
  rw [double_zero_add_half, double_half_mul, show ⌊(50000000 : ℚ)⌋ = 50000000 by norm_num,
    double_half_div]

theorem sumConfirmedBalances_threeAndSixTenths :
    UpdateBalances.sumConfirmedBalances threeAndSixTenthsEntries =
      2026619809798725 / 2251799813685248 := by
  rw [sumConfirmedBalances_eq]
  simp only [threeAndSixTenthsEntries, Spec.entryOf, confirmedAnswer, List.foldl_cons,
    List.foldl_nil, JS.add, JS.mul, JS.div, JS.floor]
  rw [double_three_tenths, double_six_tenths, double_zero_add_three_tenths,
    double_three_add_six_tenths, double_sum_mul,
    show ⌊(6039797759999999 / 67108864 : ℚ)⌋ = 89999999 by norm_num [Int.floor_eq_iff],
    double_floor_div]

/-- The double read from `0.29`. -/
theorem double_twenty_nine_hundredths : JS.toDouble (29 / 100) = 5224175567749775 / 18014398509481984 := by
  rw [JS.toDouble_eq (29 / 100) (-2) (-54) 5224175567749775 (by norm_num) (by norm_num) (by norm_num)
    (by decide)
    (by rw [JS.roundHalfEven_eq _ 5224175567749775 (by norm_num) (by norm_num)]; norm_num)]
  norm_num

/-- 0 + 0.29 in doubles. -/
theorem double_zero_add_twenty_nine_hundredths : JS.toDouble (0 + 5224175567749775 / 18014398509481984) = 5224175567749775 / 18014398509481984 := by
  rw [JS.toDouble_eq (0 + 5224175567749775 / 18014398509481984) (-2) (-54) 5224175567749775 (by norm_num) (by norm_num) (by norm_num)
    (by decide)
    (by rw [JS.roundHalfEven_eq _ 5224175567749775 (by norm_num) (by norm_num)]; norm_num)]
  norm_num

/-- 0.29 * 100000000 in doubles is 28999999.999999996. -/
theorem double_twenty_nine_hundredths_mul : JS.toDouble (5224175567749775 / 18014398509481984 * 100000000) = 7784628223999999 / 268435456 := by
  rw [JS.toDouble_eq (5224175567749775 / 18014398509481984 * 100000000) (24) (-28) 7784628223999999 (by norm_num) (by norm_num) (by norm_num)
    (by decide)
    (by rw [JS.roundHalfEven_eq _ 7784628223999999 (by norm_num) (by norm_num)]; norm_num)]
  norm_num

/-- 28999999 / 100000000 in doubles, the number printed 0.28999999. -/
theorem double_twenty_nine_floor_div : JS.toDouble (((28999999 : ℤ) : ℚ) / 100000000) = 2612087693802895 / 9007199254740992 := by
  rw [JS.toDouble_eq (((28999999 : ℤ) : ℚ) / 100000000) (-2) (-54) 5224175387605790 (by norm_num) (by norm_num) (by norm_num)
    (by decide)
    (by rw [JS.roundHalfEven_eq _ 5224175387605790 (by norm_num) (by norm_num)]; norm_num)]
  norm_num

/-- A single confirmed balance of 0.29 BCH is aggregated to 0.28999999 BCH:
`0.29 * 100000000` is 28999999.999999996 in doubles and the floor drops it to
28999999. -/
theorem sumConfirmedBalances_twentyNineHundredths :
    UpdateBalances.sumConfirmedBalances
        [Spec.entryOf 0 (confirmedAnswer (JS.toDouble (29 / 100)) 29000000)] =
      JS.div 28999999 100000000 := by
  rw [sumConfirmedBalances_eq]
  simp only [Spec.entryOf, confirmedAnswer, List.foldl_cons, List.foldl_nil, JS.add, JS.mul,
    JS.div, JS.floor]
  rw [double_twenty_nine_hundredths, double_zero_add_twenty_nine_hundredths,
    double_twenty_nine_hundredths_mul,
    show ⌊(7784628223999999 / 268435456 : ℚ)⌋ = 28999999 by norm_num [Int.floor_eq_iff]]
  simp

theorem sumInSubunits_pair (e1 e2 : HasBalanceEntry) :
    Spec.sumInSubunits [e1, e2] =
      JS.toDouble (((⌊JS.toDouble (e1.balance * 100000000)⌋ +
        ⌊JS.toDouble (e2.balance * 100000000)⌋ : ℤ) : ℚ) / 100000000) := by
  simp [Spec.sumInSubunits, JS.mul, JS.div]

theorem entryOf_balance (i : Nat) (d : AddressDetails) :
    (Spec.entryOf i d).balance = d.balance :=
  rfl

theorem confirmedAnswer_balance (b : ℚ) (s : ℤ) : (confirmedAnswer b s).balance = b := rfl

theorem sumInSubunits_threeAndSixTenths :
    Spec.sumInSubunits threeAndSixTenthsEntries = 8106479329266893 / 9007199254740992 := by
  rw [threeAndSixTenthsEntries, sumInSubunits_pair, entryOf_balance, entryOf_balance,
    confirmedAnswer_balance, confirmedAnswer_balance, double_three_tenths, double_six_tenths,
    double_three_tenths_mul, double_six_tenths_mul,
    show ⌊(30000000 : ℚ)⌋ + ⌊(60000000 : ℚ)⌋ = 90000000 by norm_num, double_nine_tenths]

theorem scenarioTwo_updateBalances :
    (UpdateBalances.updateBalances (aliceWallet 3) (demoBB scenarioTwo) (demoWorld 3)).1 =
      .ok { aliceWallet 3 with
        balance := 1 / 2
        hasBalance := [Spec.entryOf 1 (demoDetails (1 / 2) 0)] } := by
  unfold UpdateBalances.updateBalances UpdateBalances.getAddressData
  simp [UpdateBalances.getAddressDataLoop, aliceWallet, Eff.bind_eq, Eff.pure_eq,
    Eff.andThen, Eff.call, Eff.ret, UpdateBalances.generateAddress,
    UpdateBalances.addressDetails, demoBB, scenarioTwo, demoWorld, appUtil.saveWallet]
  simp [generateHasBalance_eq, List.enum_cons, Spec.hasFunds, demoDetails]
  exact ⟨by simpa [Spec.entryOf, demoDetails] using sumConfirmedBalances_half,
    by simp [Spec.entryOf]⟩

theorem pendingSpend_updateBalances :
    (UpdateBalances.updateBalances (aliceWallet 1) (demoBB pendingSpend) (demoWorld 1)).1 =
      .ok { aliceWallet 1 with balance := 0, hasBalance := [] } := by
  unfold UpdateBalances.updateBalances UpdateBalances.getAddressData
  simp [UpdateBalances.getAddressDataLoop, aliceWallet, Eff.bind_eq, Eff.pure_eq,
    Eff.andThen, Eff.call, Eff.ret, UpdateBalances.generateAddress,
    UpdateBalances.addressDetails, demoBB, pendingSpend, demoWorld, appUtil.saveWallet]
  simp [generateHasBalance_eq, List.enum_cons, Spec.hasFunds, demoDetails,
    sumConfirmedBalances_nil]

theorem threeAndSixTenths_updateBalances :
    (UpdateBalances.updateBalances (aliceWallet 2) (demoBB threeAndSixTenths)
        (demoWorld 2)).1 =
      .ok { aliceWallet 2 with
        balance := 2026619809798725 / 2251799813685248
        hasBalance := threeAndSixTenthsEntries } := by
  unfold UpdateBalances.updateBalances UpdateBalances.getAddressData
  simp [UpdateBalances.getAddressDataLoop, aliceWallet, Eff.bind_eq, Eff.pure_eq,
    Eff.andThen, Eff.call, Eff.ret, UpdateBalances.generateAddress,
    UpdateBalances.addressDetails, demoBB, threeAndSixTenths, demoWorld, appUtil.saveWallet]
  simp [generateHasBalance_eq, List.enum_cons, Spec.hasFunds, confirmedAnswer,
    double_three_tenths, double_six_tenths]
  exact ⟨by
      simpa [threeAndSixTenthsEntries, Spec.entryOf, confirmedAnswer, double_three_tenths,
        double_six_tenths] using sumConfirmedBalances_threeAndSixTenths,
    by
      simp [threeAndSixTenthsEntries, Spec.entryOf, confirmedAnswer, double_three_tenths,
        double_six_tenths]⟩

theorem demo_response (table : Nat → Except String (List AddressDetails)) (n clock i : Nat)
    (d : AddressDetails) (rest : List AddressDetails) (h : table clock = .ok (d :: rest)) :
    Spec.response (demoBB table) (aliceWallet n) clock i = .ok d := by
  simp [Spec.response, Spec.deriveAddress, Spec.deriveLeaf, demoBB, aliceWallet, h]

/-- C1. Monotonic counter: starting from a stored wallet whose `nextAddress`
is 0, with an SDK that never throws and a writable wallet file, `N` calls of
`getAddress` in a row (for every `N`, also beyond 100) leave the stored record
equal to the initial one with `nextAddress = N`; there are `N` results, and
for every `k` in `1..N` the `k`-th call returns the address derived at
`m/44'/145'/0'` then `0/(k-1)`. The advisory is printed by exactly the calls
whose incremented counter exceeds 100, that is `N - 100` times, and changes
neither the returned addresses nor the stored record. -/
theorem C1_monotonic_counter (BITBOX : BB Seed Node) (hsdk : BITBOX.NeverThrows)
    (name : String) (hname : name ≠ "") (w : World) (walletInfo : WalletInfo)
    (hw : w.wallets name = some walletInfo) (hzero : walletInfo.nextAddress = 0)
    (hu : w.unwritable name = false) (N : Nat) :
    (getAddressTimes (some name) BITBOX N w).2.wallets name =
        some { walletInfo with nextAddress := N } ∧
      (getAddressTimes (some name) BITBOX N w).1.length = N ∧
      (∀ k, 1 ≤ k → k ≤ N → ∃ a,
        Spec.deriveAddress BITBOX walletInfo.mnemonic walletInfo.network (k - 1) = .ok a ∧
        (getAddressTimes (some name) BITBOX N w).1[k - 1]? = some (.ok a)) ∧
      (getAddressTimes (some name) BITBOX N w).2.trace.count (.consoleLog advisory) =
        w.trace.count (.consoleLog advisory) + (N - 100) := by
  obtain ⟨h1, h2, h3, h4⟩ := getAddressTimes_spec BITBOX hsdk name hname N w walletInfo hw hu
  rw [hzero] at h1 h3 h4
  refine ⟨by simpa using h1, h2, fun k hk1 hk2 => ?_, by simpa using h4⟩
  obtain ⟨a, ha, hget⟩ := h3 (k - 1) (by omega)
  exact ⟨a, by simpa using ha, hget⟩

/-- C1 on the wallet `alice` with 101 calls in a row, the last of which prints
the advisory. -/
theorem C1_witness :
    (getAddressTimes (some "alice") (demoBB fun _ => .ok []) 101 (demoWorld 0)).2.wallets
          "alice" = some { aliceWallet 0 with nextAddress := 101 } ∧
      (getAddressTimes (some "alice") (demoBB fun _ => .ok []) 101 (demoWorld 0)).1.length
        = 101 ∧
      (∀ k, 1 ≤ k → k ≤ 101 → ∃ a,
        Spec.deriveAddress (demoBB fun _ => .ok []) (aliceWallet 0).mnemonic
          (aliceWallet 0).network (k - 1) = .ok a ∧
        (getAddressTimes (some "alice") (demoBB fun _ => .ok []) 101 (demoWorld 0)).1[k - 1]?
          = some (.ok a)) ∧
      (getAddressTimes (some "alice") (demoBB fun _ => .ok []) 101
          (demoWorld 0)).2.trace.count (.consoleLog advisory) =
        (demoWorld 0).trace.count (.consoleLog advisory) + (101 - 100) :=
  C1_monotonic_counter (demoBB fun _ => .ok []) (demoBB_neverThrows _) "alice" (by decide)
    (demoWorld 0) (aliceWallet 0) rfl rfl rfl 101

/-- C2, the code at the failing input: a wallet with one address for which
the provider answers a confirmed balance of 0 and an unconfirmed balance of
-1. The unconfirmed balance is non-zero, `updateBalances` succeeds, and the
`hasBalance` list it returns is empty, so it has no entry of index 0. -/
theorem C2_code_at_failing_input :
    Spec.response (demoBB pendingSpend) (aliceWallet 1) 0 0 = .ok (demoDetails 0 (-1)) ∧
      (demoDetails 0 (-1)).unconfirmedBalance ≠ 0 ∧
      (UpdateBalances.updateBalances (aliceWallet 1) (demoBB pendingSpend) (demoWorld 1)).1 =
        .ok { aliceWallet 1 with balance := 0, hasBalance := [] } ∧
      ¬ ∃ e ∈ ({ aliceWallet 1 with balance := 0, hasBalance := [] } : WalletInfo).hasBalance,
        e.index = 0 := by
  refine ⟨demo_response _ _ _ _ _ [] rfl, by simp [demoDetails], pendingSpend_updateBalances, ?_⟩
  simp

/-- What the guard of `generateHasBalance` computes: after a successful
`updateBalances` of a record with `nextAddress = n`, the `hasBalance` list has
an entry of index `i` if and only if `i < n` and the provider's answer for the
address at index `i` has a confirmed or an unconfirmed balance greater than
zero; every entry carries the fields of the answer for its index. -/
theorem updateBalances_filtering (BITBOX : BB Seed Node) (walletInfo updated : WalletInfo)
    (w : World)
    (h : (UpdateBalances.updateBalances walletInfo BITBOX w).1 = .ok updated) :
    (∀ i, (∃ e ∈ updated.hasBalance, e.index = i) ↔
      i < walletInfo.nextAddress ∧ ∃ d,
        Spec.response BITBOX walletInfo (w.clock + i) i = .ok d ∧
        (d.balance > 0 ∨ d.unconfirmedBalance > 0)) ∧
    (∀ e ∈ updated.hasBalance, ∃ d,
      Spec.response BITBOX walletInfo (w.clock + e.index) e.index = .ok d ∧
      e = Spec.entryOf e.index d) := by
  obtain ⟨addressData, hdata, hupd, -, -, -⟩ := updateBalances_ok_inv walletInfo BITBOX w updated h
  obtain ⟨hlen, hget⟩ := getAddressData_ok walletInfo BITBOX w addressData hdata
  have hhb : updated.hasBalance = UpdateBalances.generateHasBalance addressData := by
    rw [hupd]
  have inv : ∀ e ∈ updated.hasBalance, e.index < walletInfo.nextAddress ∧ ∃ d,
      Spec.response BITBOX walletInfo (w.clock + e.index) e.index = .ok d ∧
      (d.balance > 0 ∨ d.unconfirmedBalance > 0) ∧ e = Spec.entryOf e.index d := by
    intro e he
    rw [hhb, mem_generateHasBalance] at he
    obtain ⟨j, d1, hj, hf, rfl⟩ := he
    have hjn : j < walletInfo.nextAddress := by
      rw [← hlen]
      exact (List.getElem?_eq_some.1 hj).1
    obtain ⟨d, hd, hgetj⟩ := hget j hjn
    rw [hj] at hgetj
    simp only [Option.some.injEq] at hgetj
    subst hgetj
    exact ⟨hjn, d, hd, hf, rfl⟩
  refine ⟨fun i => ⟨?_, ?_⟩, fun e he => ?_⟩
  · rintro ⟨e, he, rfl⟩
    obtain ⟨h1, d, h2, h3, -⟩ := inv e he
    exact ⟨h1, d, h2, h3⟩
  · rintro ⟨hi, d, hd, hf⟩
    obtain ⟨d1, hd1, hgeti⟩ := hget i hi
    rw [hd] at hd1
    simp only [Except.ok.injEq] at hd1
    subst hd1
    refine ⟨Spec.entryOf i { d with addressIndex := some i }, ?_, rfl⟩
    rw [hhb, mem_generateHasBalance]
    exact ⟨i, _, hgeti, hf, rfl⟩
  · obtain ⟨-, d, h2, -, h4⟩ := inv e he
    exact ⟨d, h2, h4⟩

/-- C3, the code at the failing input: a wallet with two addresses for which
the provider answers 0.3 BCH with 30000000 satoshis and 0.6 BCH with 60000000
satoshis, each confirmed balance being its satoshi amount divided by
100000000. `updateBalances` succeeds; the `balanceSat` fields of its
`hasBalance` list sum to 90000000, while the balance it stores is the double
89999999 / 100000000, which is 89999999 subunits. -/
theorem C3_code_at_failing_input :
    (UpdateBalances.updateBalances (aliceWallet 2) (demoBB threeAndSixTenths)
        (demoWorld 2)).1 =
      .ok { aliceWallet 2 with
        balance := 2026619809798725 / 2251799813685248
        hasBalance := threeAndSixTenthsEntries } ∧
    (∀ e ∈ threeAndSixTenthsEntries, e.balance = JS.div e.balanceSat 100000000) ∧
    (threeAndSixTenthsEntries.map (fun e => e.balanceSat)).sum = 90000000 ∧
    JS.div 89999999 100000000 = 2026619809798725 / 2251799813685248 ∧
    JS.mul (2026619809798725 / 2251799813685248) 100000000 = 89999999 ∧
    (2026619809798725 / 2251799813685248 : ℚ) * 100000000 ≠
      (((threeAndSixTenthsEntries.map (fun e => e.balanceSat)).sum : ℤ) : ℚ) := by
  have hsum : (threeAndSixTenthsEntries.map (fun e => e.balanceSat)).sum = 90000000 := by
    simp [threeAndSixTenthsEntries, Spec.entryOf, confirmedAnswer]
  refine ⟨threeAndSixTenths_updateBalances, ?_, hsum, ?_, double_stored_mul, ?_⟩
  · intro e he
    simp only [threeAndSixTenthsEntries, List.mem_cons, List.mem_singleton, List.not_mem_nil,
      or_false] at he
    rcases he with rfl | rfl
    · show JS.toDouble (3 / 10) = JS.toDouble (((30000000 : ℤ) : ℚ) / 100000000)
      congr 1
      norm_num
    · show JS.toDouble (3 / 5) = JS.toDouble (((60000000 : ℤ) : ℚ) / 100000000)
      congr 1
      norm_num
  · have h := double_floor_div
    simp only [Int.cast_ofNat] at h
    exact h
  · rw [hsum]
    norm_num

/-- C4. No partial persistence: if, for some `k < nextAddress`, the provider's
balance query for the address at index `k` fails, then `updateBalances` fails,
the wallet directory is the one from before the call, and no write of a wallet
file is recorded; when the queries for the indices before `k` succeed, so that
the query for `k` is the one that fails during the run, `updateBalances` fails
with that query's error. -/
theorem C4_no_partial_persistence (BITBOX : BB Seed Node) (walletInfo : WalletInfo)
    (w : World) (k : Nat) (address msg : String) (hk : k < walletInfo.nextAddress)
    (haddr : Spec.deriveAddress BITBOX walletInfo.mnemonic walletInfo.network k = .ok address)
    (hfail : BITBOX.details (w.clock + k) [address] = .error msg) :
    (∃ e, (UpdateBalances.updateBalances walletInfo BITBOX w).1 = .error e ∧
      ((∀ t, t < k → ∃ d, Spec.response BITBOX walletInfo (w.clock + t) t = .ok d) →
        e = .sdk msg)) ∧
    (UpdateBalances.updateBalances walletInfo BITBOX w).2.wallets = w.wallets ∧
    ∃ evs, (UpdateBalances.updateBalances walletInfo BITBOX w).2.trace = w.trace ++ evs ∧
      ∀ ev ∈ evs, Event.isWrite ev = false := by
  have hresp : Spec.response BITBOX walletInfo (w.clock + k) k = .error (.sdk msg) := by
    simp [Spec.response, haddr, hfail]
  obtain ⟨q1, -, q3⟩ := getAddressData_quiet walletInfo BITBOX w
  cases hdata : (UpdateBalances.getAddressData walletInfo BITBOX w).1 with
  | ok out =>
    obtain ⟨-, hget⟩ := getAddressData_ok walletInfo BITBOX w out hdata
    obtain ⟨d, hd, -⟩ := hget k hk
    rw [hresp] at hd
    simp at hd
  | error e =>
    rw [updateBalances_of_error walletInfo BITBOX w e hdata]
    refine ⟨⟨e, rfl, fun hbefore => ?_⟩, q1, q3⟩
    have := getAddressData_error walletInfo BITBOX w k (.sdk msg) hk hbefore hresp
    rw [hdata] at this
    exact Except.error.inj this

/-- C4 on the wallet `alice` with three addresses when the second query times
out: the update fails with the timeout and the directory is untouched. -/
theorem C4_witness :
    (∃ e, (UpdateBalances.updateBalances (aliceWallet 3) (demoBB timeoutAtOne)
          (demoWorld 3)).1 = .error e ∧
      ((∀ t, t < 1 → ∃ d, Spec.response (demoBB timeoutAtOne) (aliceWallet 3)
          ((demoWorld 3).clock + t) t = .ok d) → e = .sdk "timeout")) ∧
    (UpdateBalances.updateBalances (aliceWallet 3) (demoBB timeoutAtOne)
        (demoWorld 3)).2.wallets = (demoWorld 3).wallets ∧
    ∃ evs, (UpdateBalances.updateBalances (aliceWallet 3) (demoBB timeoutAtOne)
        (demoWorld 3)).2.trace = (demoWorld 3).trace ++ evs ∧
      ∀ ev ∈ evs, Event.isWrite ev = false :=
  C4_no_partial_persistence (demoBB timeoutAtOne) (aliceWallet 3) (demoWorld 3) 1
    "seed@testnet/m/44'/145'/0'/0/1" "timeout" (by decide) rfl rfl

/-- C7, the code at the failing input: the `hasBalance` list with confirmed
balances 0.3 and 0.6. Converting each balance to subunits gives 30000000 and
60000000, whose integer sum divided by 100000000 is the double 0.9;
`sumConfirmedBalances` instead adds the display-unit balances to
0.8999999999999999, floors 89999999.99999999 to 89999999 and returns the
double 0.89999999. -/
theorem C7_code_at_failing_input :
    UpdateBalances.sumConfirmedBalances threeAndSixTenthsEntries = JS.div 89999999 100000000 ∧
      Spec.sumInSubunits threeAndSixTenthsEntries = JS.div 90000000 100000000 ∧
      (threeAndSixTenthsEntries.map (fun e => ⌊JS.mul e.balance 100000000⌋)) =
        [30000000, 60000000] ∧
      threeAndSixTenthsEntries.foldl (fun t e => JS.add t e.balance) 0 =
        2026619832316723 / 2251799813685248 ∧
      UpdateBalances.sumConfirmedBalances threeAndSixTenthsEntries ≠
        Spec.sumInSubunits threeAndSixTenthsEntries := by
  have h1 : JS.div 89999999 100000000 = 2026619809798725 / 2251799813685248 := by
    have h := double_floor_div
    simp only [Int.cast_ofNat] at h
    exact h
  have h2 : JS.div 90000000 100000000 = 8106479329266893 / 9007199254740992 := by
    have h := double_nine_tenths
    simp only [Int.cast_ofNat] at h
    exact h
  refine ⟨by rw [h1, sumConfirmedBalances_threeAndSixTenths],
    by rw [h2, sumInSubunits_threeAndSixTenths], ?_, ?_, ?_⟩
  · simp only [threeAndSixTenthsEntries, List.map_cons, List.map_nil, entryOf_balance,
      confirmedAnswer_balance, JS.mul]
    rw [double_three_tenths, double_six_tenths, double_three_tenths_mul,
      double_six_tenths_mul]
    norm_num
  · simp only [threeAndSixTenthsEntries, List.foldl_cons, List.foldl_nil, entryOf_balance,
      confirmedAnswer_balance, JS.add]
    rw [double_three_tenths, double_six_tenths, double_zero_add_three_tenths,
      double_three_add_six_tenths]
  · rw [sumConfirmedBalances_threeAndSixTenths, sumInSubunits_threeAndSixTenths]
    norm_num

/-- C8. Range and order of `hasBalance`: in the record a successful
`updateBalances` of a wallet with `nextAddress = n` returns and stores, the
`index` fields of `hasBalance` are strictly increasing and all lie in
`[0, n)`; the list has at most `n` entries, no index appears twice, and for
`n = 0` the list is empty and the balance is 0. -/
theorem C8_hasBalance_range_and_order (BITBOX : BB Seed Node) (walletInfo updated : WalletInfo)
    (w : World)
    (h : (UpdateBalances.updateBalances walletInfo BITBOX w).1 = .ok updated) :
    (updated.hasBalance.map (fun e => e.index)).Pairwise (fun a b => a < b) ∧
      (∀ e ∈ updated.hasBalance, e.index < walletInfo.nextAddress) ∧
      updated.hasBalance.length ≤ walletInfo.nextAddress ∧
      (updated.hasBalance.map (fun e => e.index)).Nodup ∧
      (walletInfo.nextAddress = 0 → updated.hasBalance = [] ∧ updated.balance = 0) ∧
      (UpdateBalances.updateBalances walletInfo BITBOX w).2.wallets walletInfo.name =
        some updated := by
  obtain ⟨addressData, hdata, hupd, -, hwal, -⟩ :=
    updateBalances_ok_inv walletInfo BITBOX w updated h
  obtain ⟨hlen, -⟩ := getAddressData_ok walletInfo BITBOX w addressData hdata
  have hhb : updated.hasBalance = UpdateBalances.generateHasBalance addressData := by
    rw [hupd]
  have hbal : updated.balance = UpdateBalances.sumConfirmedBalances updated.hasBalance := by
    rw [hupd]
  have hsorted := generateHasBalance_index_sorted addressData
  rw [← hhb] at hsorted
  have hcount : updated.hasBalance.length ≤ walletInfo.nextAddress := by
    rw [hhb, generateHasBalance_eq, List.length_map, ← hlen]
    exact (List.length_filter_le _ _).trans (by simp)
  refine ⟨hsorted, fun e he => ?_, hcount, hsorted.imp (fun hab => Nat.ne_of_lt hab),
    fun hz => ?_, by rw [hwal, Function.update_same]⟩
  · rw [hhb, mem_generateHasBalance] at he
    obtain ⟨j, d, hj, -, rfl⟩ := he
    rw [← hlen]
    exact (List.getElem?_eq_some.1 hj).1
  · have hnil : updated.hasBalance = [] := by
      apply List.eq_nil_of_length_eq_zero
      omega
    refine ⟨hnil, ?_⟩
    rw [hbal, hnil, sumConfirmedBalances_nil]

/-- C8 on example scenario 2: the single index 1 lies below 3. -/
theorem C8_witness :
    (([Spec.entryOf 1 (demoDetails (1 / 2) 0)] : List HasBalanceEntry).map
        (fun e => e.index)).Pairwise (fun a b => a < b) ∧
      (∀ e ∈ ([Spec.entryOf 1 (demoDetails (1 / 2) 0)] : List HasBalanceEntry),
        e.index < (aliceWallet 3).nextAddress) :=
  ⟨(C8_hasBalance_range_and_order (demoBB scenarioTwo) (aliceWallet 3) _ (demoWorld 3)
      scenarioTwo_updateBalances).1,
    (C8_hasBalance_range_and_order (demoBB scenarioTwo) (aliceWallet 3) _ (demoWorld 3)
      scenarioTwo_updateBalances).2.1⟩

/-- C5. Cross-component determinism: for every SDK, every mnemonic, every
network value and every index, `getAddress` on a stored record (file writable,
legacy encoding of the leaf not throwing) returns or throws exactly what
`generateAddress` returns or throws for that record and its `nextAddress`, in
whatever world the latter runs; in general, whenever `getAddress` returns an
address, `generateAddress` returns the same one; and what `generateAddress`
returns or throws is the same for any two records with the same mnemonic and
network at the same index, so both are a function of `(mnemonic, network,
index)` only. -/
theorem C5_cross_component_determinism (BITBOX : BB Seed Node) :
    (∀ (name : String) (w w1 : World) (walletInfo : WalletInfo),
      name ≠ "" → w.wallets name = some walletInfo → w.unwritable name = false →
      (∀ leaf, Spec.deriveLeaf BITBOX walletInfo.mnemonic walletInfo.network
          walletInfo.nextAddress = .ok leaf →
        ∃ legacy, BITBOX.toLegacyAddress leaf = .ok legacy) →
      (GetAddress.getAddress (some name) BITBOX w).1 =
        (UpdateBalances.generateAddress walletInfo walletInfo.nextAddress BITBOX w1).1) ∧
    (∀ (name : String) (w w1 : World) (walletInfo : WalletInfo) (a : String),
      w.wallets name = some walletInfo →
      (GetAddress.getAddress (some name) BITBOX w).1 = .ok a →
      (UpdateBalances.generateAddress walletInfo walletInfo.nextAddress BITBOX w1).1 = .ok a) ∧
    (∀ (r1 r2 : WalletInfo) (i : Nat) (w1 w2 : World),
      r1.mnemonic = r2.mnemonic → r1.network = r2.network →
      (UpdateBalances.generateAddress r1 i BITBOX w1).1 =
        (UpdateBalances.generateAddress r2 i BITBOX w2).1) ∧
    (∀ (n1 n2 : String) (w1 w2 : World) (r1 r2 : WalletInfo) (a1 a2 : String),
      w1.wallets n1 = some r1 → w2.wallets n2 = some r2 →
      r1.mnemonic = r2.mnemonic → r1.network = r2.network → r1.nextAddress = r2.nextAddress →
      (GetAddress.getAddress (some n1) BITBOX w1).1 = .ok a1 →
      (GetAddress.getAddress (some n2) BITBOX w2).1 = .ok a2 → a1 = a2) := by
  have both : ∀ (name : String) (w w1 : World) (walletInfo : WalletInfo),
      name ≠ "" → w.wallets name = some walletInfo → w.unwritable name = false →
      (∀ leaf, Spec.deriveLeaf BITBOX walletInfo.mnemonic walletInfo.network
          walletInfo.nextAddress = .ok leaf →
        ∃ legacy, BITBOX.toLegacyAddress leaf = .ok legacy) →
      (GetAddress.getAddress (some name) BITBOX w).1 =
        (UpdateBalances.generateAddress walletInfo walletInfo.nextAddress BITBOX w1).1 := by
    intro name w w1 walletInfo hname hw hu hlegacy
    rw [generateAddress_fst]
    cases hleaf : Spec.deriveLeaf BITBOX walletInfo.mnemonic walletInfo.network
        walletInfo.nextAddress with
    | error msg =>
      rw [(getAddress_leaf_error BITBOX name w walletInfo msg hname hw hleaf).1]
      simp [Spec.deriveAddress, hleaf]
    | ok change =>
      obtain ⟨legacy, hl⟩ := hlegacy change hleaf
      rw [getAddress_eq BITBOX name w walletInfo change hname hw hleaf,
        deriveAddress_of_leaf BITBOX _ _ _ change hleaf]
      simp only [hu, Bool.false_eq_true, if_false, hl]
      cases BITBOX.toCashAddress change <;> rfl
  have key : ∀ (name : String) (w w1 : World) (walletInfo : WalletInfo) (a : String),
      w.wallets name = some walletInfo →
      (GetAddress.getAddress (some name) BITBOX w).1 = .ok a →
      (UpdateBalances.generateAddress walletInfo walletInfo.nextAddress BITBOX w1).1 =
        .ok a := by
    intro name w w1 walletInfo a hw h
    obtain ⟨-, -, change, hleaf, hcash, -⟩ := getAddress_ok_inv BITBOX name w walletInfo a hw h
    rw [generateAddress_fst, deriveAddress_of_leaf BITBOX _ _ _ change hleaf, hcash]
  have same : ∀ (r1 r2 : WalletInfo) (i : Nat) (w1 w2 : World),
      r1.mnemonic = r2.mnemonic → r1.network = r2.network →
      (UpdateBalances.generateAddress r1 i BITBOX w1).1 =
        (UpdateBalances.generateAddress r2 i BITBOX w2).1 := by
    intro r1 r2 i w1 w2 hm hn
    rw [generateAddress_fst, generateAddress_fst, hm, hn]
  refine ⟨both, key, same, ?_⟩
  intro n1 n2 w1 w2 r1 r2 a1 a2 hw1 hw2 hm hn hi h1 h2
  have e1 := key n1 w1 w1 r1 a1 hw1 h1
  have e2 := key n2 w2 w1 r2 a2 hw2 h2
  rw [same r1 r2 r1.nextAddress w1 w1 hm hn, hi, e2] at e1
  exact (Except.ok.inj e1).symm

/-- C5 on the wallet `alice` at index 2: `getAddress` returns what
`generateAddress` returns for index 2, and that is the address of the leaf
`0/2` of the testnet account. -/
theorem C5_witness :
    (GetAddress.getAddress (some "alice") (demoBB fun _ => .ok []) (demoWorld 2)).1 =
        (UpdateBalances.generateAddress (aliceWallet 2) (aliceWallet 2).nextAddress
          (demoBB fun _ => .ok []) (demoWorld 5)).1 ∧
      (UpdateBalances.generateAddress (aliceWallet 2) (aliceWallet 2).nextAddress
        (demoBB fun _ => .ok []) (demoWorld 5)).1 = .ok "seed@testnet/m/44'/145'/0'/0/2" :=
  ⟨(C5_cross_component_determinism (demoBB fun _ => .ok [])).1 "alice" (demoWorld 2)
      (demoWorld 5) (aliceWallet 2) (by decide) rfl rfl (fun leaf _ => ⟨leaf, rfl⟩),
    (C5_cross_component_determinism (demoBB fun _ => .ok [])).2.1 "alice" (demoWorld 2)
      (demoWorld 5) (aliceWallet 2) "seed@testnet/m/44'/145'/0'/0/2" rfl rfl⟩

/-- C9. Each operation mutates only its own fields: after a successful
`getAddress` the wallet directory differs from the one before only in the
file of that wallet, which holds the loaded record with `nextAddress`
increased by one and every other field (among them `balance` and
`hasBalance`) as loaded; the record a successful `updateBalances` returns is
the input with only `balance` and `hasBalance` replaced, so `name`, `network`,
`mnemonic` and `nextAddress` are unchanged, and it is the record stored under
the wallet's name. -/
theorem C9_each_operation_mutates_only_its_own_fields (BITBOX : BB Seed Node) (w : World) :
    (∀ (name : String) (loaded : WalletInfo) (a : String),
      w.wallets name = some loaded →
      (GetAddress.getAddress (some name) BITBOX w).1 = .ok a →
      (GetAddress.getAddress (some name) BITBOX w).2.wallets =
        Function.update w.wallets name
          (some { loaded with nextAddress := loaded.nextAddress + 1 })) ∧
    (∀ (walletInfo updated : WalletInfo),
      (UpdateBalances.updateBalances walletInfo BITBOX w).1 = .ok updated →
      updated =
        { walletInfo with balance := updated.balance, hasBalance := updated.hasBalance } ∧
      updated.name = walletInfo.name ∧ updated.network = walletInfo.network ∧
      updated.mnemonic = walletInfo.mnemonic ∧
      updated.nextAddress = walletInfo.nextAddress ∧
      (UpdateBalances.updateBalances walletInfo BITBOX w).2.wallets =
        Function.update w.wallets walletInfo.name (some updated)) := by
  constructor
  · intro name loaded a hw h
    obtain ⟨hname, hu, change, hleaf, -, -⟩ := getAddress_ok_inv BITBOX name w loaded a hw h
    rw [getAddress_eq BITBOX name w loaded change hname hw hleaf]
    simp [hu]
  · intro walletInfo updated h
    obtain ⟨addressData, -, hupd, -, hwal, -⟩ :=
      updateBalances_ok_inv walletInfo BITBOX w updated h
    refine ⟨?_, ?_, ?_, ?_, ?_, hwal⟩ <;> rw [hupd]

/-- C9 on the wallet `alice`: with two addresses issued the call stores the
loaded record with `nextAddress = 3`, and the update of example scenario 2
returns the input record with only `balance` and `hasBalance` replaced. -/
theorem C9_witness :
    (GetAddress.getAddress (some "alice") (demoBB fun _ => .ok []) (demoWorld 2)).2.wallets =
        Function.update (demoWorld 2).wallets "alice"
          (some { aliceWallet 2 with nextAddress := (aliceWallet 2).nextAddress + 1 }) ∧
      ({ aliceWallet 3 with
          balance := 1 / 2
          hasBalance := [Spec.entryOf 1 (demoDetails (1 / 2) 0)] } : WalletInfo).nextAddress =
        (aliceWallet 3).nextAddress :=
  ⟨(C9_each_operation_mutates_only_its_own_fields (demoBB fun _ => .ok []) (demoWorld 2)).1
      "alice" (aliceWallet 2) "seed@testnet/m/44'/145'/0'/0/2" rfl rfl,
    ((C9_each_operation_mutates_only_its_own_fields (demoBB scenarioTwo) (demoWorld 3)).2
      (aliceWallet 3) _ scenarioTwo_updateBalances).2.2.2.2.1⟩

/-- C10. Persist before encode: for a loadable record whose seed and path
derivation succeed, a `getAddress` call with a writable wallet file records
exactly one write, of the record with `nextAddress + 1`; every event between
the start of the call and that write is neither a write nor an address
encoding, the event right after it is the cash-address encoding, and the
stored record has `nextAddress + 1` whatever the encoding does; if the
encoding (cash or legacy) fails, `getAddress` fails with its error; an address
is returned only as encoded from the derived leaf. If the write itself fails,
`getAddress` fails with the rejection, returns no address, leaves the
directory as it was and never reaches the encoding. -/
theorem C10_persist_before_encode (BITBOX : BB Seed Node) (name : String) (w : World)
    (walletInfo : WalletInfo) (change : Node) (hname : name ≠ "")
    (hw : w.wallets name = some walletInfo)
    (hleaf : Spec.deriveLeaf BITBOX walletInfo.mnemonic walletInfo.network
      walletInfo.nextAddress = .ok change) :
    (w.unwritable name = false →
      (∃ before after,
        (GetAddress.getAddress (some name) BITBOX w).2.trace =
          w.trace ++ (before ++
            [.writeFile name { walletInfo with nextAddress := walletInfo.nextAddress + 1 }] ++
            after) ∧
        (∀ ev ∈ before,
          Event.isWrite ev = false ∧ ev ≠ .toCashAddress ∧ ev ≠ .toLegacyAddress) ∧
        (∀ ev ∈ after, Event.isWrite ev = false) ∧
        after.head? = some .toCashAddress) ∧
      (GetAddress.getAddress (some name) BITBOX w).2.wallets name =
        some { walletInfo with nextAddress := walletInfo.nextAddress + 1 } ∧
      (∀ msg, BITBOX.toCashAddress change = .error msg →
        (GetAddress.getAddress (some name) BITBOX w).1 = .error (.sdk msg)) ∧
      (∀ a msg, BITBOX.toCashAddress change = .ok a →
        BITBOX.toLegacyAddress change = .error msg →
        (GetAddress.getAddress (some name) BITBOX w).1 = .error (.sdk msg)) ∧
      (∀ a, (GetAddress.getAddress (some name) BITBOX w).1 = .ok a →
        BITBOX.toCashAddress change = .ok a)) ∧
    (w.unwritable name = true →
      (GetAddress.getAddress (some name) BITBOX w).1 = .error .writeRejected ∧
      (GetAddress.getAddress (some name) BITBOX w).2.wallets = w.wallets ∧
      ∃ evs, (GetAddress.getAddress (some name) BITBOX w).2.trace = w.trace ++ evs ∧
        Event.toCashAddress ∉ evs ∧ Event.toLegacyAddress ∉ evs) := by
  rw [getAddress_eq BITBOX name w walletInfo change hname hw hleaf]
  constructor
  · intro hu
    simp only [hu, Bool.false_eq_true, if_false]
    refine ⟨⟨[.require name, .toSeed walletInfo.mnemonic,
        .fromSeed (if walletInfo.network = "testnet" then some "testnet" else none),
        .derivePath "m/44'/145'/0'",
        .derivePath ("0/" ++ toString walletInfo.nextAddress)] ++
        (if walletInfo.nextAddress + 1 > 100 then [.consoleLog advisory] else []),
      (match BITBOX.toCashAddress change with
        | .error _ => [.toCashAddress]
        | .ok _ => [.toCashAddress, .toLegacyAddress]), ?_, ?_, ?_, ?_⟩, ?_, ?_, ?_, ?_⟩
    · simp
    · intro ev hev
      by_cases hadv : walletInfo.nextAddress + 1 > 100
      · simp only [hadv, if_true] at hev
        simp only [List.cons_append, List.nil_append, List.mem_cons, List.mem_singleton,
          List.not_mem_nil, or_false] at hev
        rcases hev with rfl | rfl | rfl | rfl | rfl | rfl <;> simp [Event.isWrite]
      · simp only [hadv, if_false] at hev
        simp only [List.append_nil, List.mem_cons, List.mem_singleton, List.not_mem_nil,
          or_false] at hev
        rcases hev with rfl | rfl | rfl | rfl | rfl <;> simp [Event.isWrite]
    · intro ev hev
      cases h5 : BITBOX.toCashAddress change <;> rw [h5] at hev <;>
        simp only [List.mem_cons, List.mem_singleton, List.not_mem_nil, or_false] at hev
      · subst hev
        rfl
      · rcases hev with rfl | rfl <;> rfl
    · cases BITBOX.toCashAddress change <;> rfl
    · simp
    · intro msg h5
      simp [h5]
    · intro a msg h5 h6
      simp [h5, h6]
    · intro a h
      cases h5 : BITBOX.toCashAddress change with
      | error msg => simp [h5] at h
      | ok a1 =>
        cases h6 : BITBOX.toLegacyAddress change with
        | error msg => simp [h5, h6] at h
        | ok legacy =>
          simp only [h5, h6, Except.ok.injEq] at h
          rw [h]
  · intro hu
    simp only [hu, if_true, true_and]
    refine ⟨_, rfl, ?_, ?_⟩ <;>
      by_cases hadv : walletInfo.nextAddress + 1 > 100 <;> simp [hadv]

/-- C10 on the wallet `alice` with 100 addresses issued: the call that prints
the advisory writes the record with `nextAddress = 101` once, before the
encoding. -/
theorem C10_witness :
    (∃ before after,
        (GetAddress.getAddress (some "alice") (demoBB fun _ => .ok [])
            (demoWorld 100)).2.trace =
          (demoWorld 100).trace ++ (before ++
            [.writeFile "alice"
              { aliceWallet 100 with nextAddress := (aliceWallet 100).nextAddress + 1 }] ++
            after) ∧
        (∀ ev ∈ before,
          Event.isWrite ev = false ∧ ev ≠ .toCashAddress ∧ ev ≠ .toLegacyAddress) ∧
        (∀ ev ∈ after, Event.isWrite ev = false) ∧
        after.head? = some .toCashAddress) ∧
      (GetAddress.getAddress (some "alice") (demoBB fun _ => .ok [])
          (demoWorld 100)).2.wallets "alice" =
        some { aliceWallet 100 with nextAddress := (aliceWallet 100).nextAddress + 1 } :=
  ⟨((C10_persist_before_encode (demoBB fun _ => .ok []) "alice" (demoWorld 100)
      (aliceWallet 100) "seed@testnet/m/44'/145'/0'/0/100" (by decide) rfl rfl).1 rfl).1,
    ((C10_persist_before_encode (demoBB fun _ => .ok []) "alice" (demoWorld 100)
      (aliceWallet 100) "seed@testnet/m/44'/145'/0'/0/100" (by decide) rfl rfl).1 rfl).2.1⟩

/-- C6. Name validation precedes store access: when the wallet name is missing
or the empty string, `getAddress` throws the validation error and leaves the
world as it was (nothing is loaded or saved, nothing is traced), and
`validateFlags` throws the same error; for every non-empty name
`validateFlags` returns `true` and `getAddress` does not throw the validation
error. -/
theorem C6_name_validation_precedes_store_access (BITBOX : BB Seed Node) (w : World) :
    (∀ name : Option String, name = none ∨ name = some "" →
      GetAddress.getAddress name BITBOX w = (.error .mustSpecifyWallet, w) ∧
      UpdateBalances.validateFlags { name := name } = .error .mustSpecifyWallet) ∧
    (∀ name : String, name ≠ "" →
      UpdateBalances.validateFlags { name := some name } = .ok true ∧
      (GetAddress.getAddress (some name) BITBOX w).1 ≠ .error .mustSpecifyWallet) := by
  refine ⟨fun name h => ⟨getAddress_no_name BITBOX name w h, ?_⟩, fun name hname => ⟨?_, ?_⟩⟩
  · rcases h with rfl | rfl <;> simp [UpdateBalances.validateFlags]
  · simp [UpdateBalances.validateFlags, hname]
  · cases hw : w.wallets name with
    | none =>
      rw [getAddress_open_error BITBOX name w hname hw]
      simp
    | some walletInfo =>
      cases hleaf : Spec.deriveLeaf BITBOX walletInfo.mnemonic walletInfo.network
          walletInfo.nextAddress with
      | error msg =>
        rw [(getAddress_leaf_error BITBOX name w walletInfo msg hname hw hleaf).1]
        simp
      | ok change =>
        rw [getAddress_eq BITBOX name w walletInfo change hname hw hleaf]
        split
        · simp
        · cases BITBOX.toCashAddress change <;> cases BITBOX.toLegacyAddress change <;> simp

/-- C6 on the wallet directory holding `alice`: no name and the empty name are
refused without touching the world, the name `alice` passes validation. -/
theorem C6_witness :
    (GetAddress.getAddress (some "") (demoBB fun _ => .ok []) (demoWorld 0) =
        (.error .mustSpecifyWallet, demoWorld 0) ∧
      UpdateBalances.validateFlags { name := some "" } = .error .mustSpecifyWallet) ∧
    (UpdateBalances.validateFlags { name := some "alice" } = .ok true ∧
      (GetAddress.getAddress (some "alice") (demoBB fun _ => .ok []) (demoWorld 0)).1 ≠
        .error .mustSpecifyWallet) :=
  ⟨(C6_name_validation_precedes_store_access (demoBB fun _ => .ok []) (demoWorld 0)).1
      (some "") (Or.inr rfl),
    (C6_name_validation_precedes_store_access (demoBB fun _ => .ok []) (demoWorld 0)).2
      "alice" (by decide)⟩

end Claims
